import Mathlib

/-!
# Verification of `node-red-contrib-sqlite-link-insert`

A shallow embedding of the grouped multi-table insert engine implemented in
`src/sqlite-link-insert.js`, together with theorems settling the frozen
claims about its specification.

Modelling conventions:

* JavaScript values flowing through the engine are modelled by `JSVal`,
  covering the JSON scalar universe (`null`, booleans, numbers, strings).
  Numbers are modelled as exact rationals `ℚ`; number-to-string rendering
  (`numToString`) abbreviates JavaScript's double formatting to a decimal /
  rational rendering — the development only relies on rendered numbers being
  built from digits, `-` and `/`, which both renderings satisfy.
* JavaScript objects (source rows, mapped rows, key→id maps, `ctxMaps`,
  `keySpecs`) are association lists in insertion order, mirroring the
  insertion-ordered string-keyed objects/Maps of the source.
* `undefined` is represented by `Option` at object-field granularity
  (`getF` returning `none` plays the role of `obj[k] === undefined`).
* Fallible JavaScript code (functions that `throw`) returns `Except`.
* External collaborators (the typed value resolver, the row-source resolver,
  and the sqlite driver) are parameters of the model (`Env`), as §6 of the
  specification treats them as abstract boundary interfaces.
-/

/-- A JavaScript value, restricted to the JSON scalar universe that the
engine's row values range over. -/
inductive JSVal where
  | vnull
  | vbool (b : Bool)
  | vnum (q : ℚ)
  | vstr (s : String)
deriving DecidableEq, Repr, Inhabited

namespace SqliteLinkInsert

open JSVal

/-! ## String helpers (embedding of the JavaScript string primitives used) -/

/-- JavaScript whitespace recognised by `String.prototype.trim`, restricted
to its ASCII part (the claims only exercise ASCII input). -/
def jsWs (c : Char) : Bool :=
  c == ' ' || c == '\t' || c == '\n' || c == '\r' || c == '\x0b' || c == '\x0c'

/-- `trim` on the underlying character list: drop whitespace at both ends. -/
def trimChars (l : List Char) : List Char :=
  ((l.dropWhile jsWs).reverse.dropWhile jsWs).reverse

/-- Embedding of `String.prototype.trim`. -/
def jsTrim (s : String) : String := String.mk (trimChars s.data)

/-- ASCII lower-casing of one character (embedding of `toLowerCase`, which
the claims only exercise on ASCII strings). -/
def lowerCh (c : Char) : Char :=
  if 'A' ≤ c ∧ c ≤ 'Z' then Char.ofNat (c.toNat + 32) else c

/-- ASCII upper-casing of one character. -/
def upperCh (c : Char) : Char :=
  if 'a' ≤ c ∧ c ≤ 'z' then Char.ofNat (c.toNat - 32) else c

/-- Embedding of `String.prototype.toLowerCase` (ASCII part). -/
def jsToLower (s : String) : String := String.mk (s.data.map lowerCh)

/-- Embedding of `String.prototype.toUpperCase` (ASCII part). -/
def jsToUpper (s : String) : String := String.mk (s.data.map upperCh)

/-- The decimal digit character for `n < 10`. -/
def digitCh (n : Nat) : Char := Char.ofNat (48 + n)

/-- Decimal digit list of a natural number (most significant first). -/
def natDigits (n : Nat) : List Char :=
  if _h : n < 10 then [digitCh n]
  else natDigits (n / 10) ++ [digitCh (n % 10)]
decreasing_by exact Nat.div_lt_self (by omega) (by omega)

/-- Decimal rendering of a natural number. -/
def natRepr (n : Nat) : String := String.mk (natDigits n)

/-- Decimal rendering of an integer. -/
def intRepr (i : Int) : String :=
  if i < 0 then "-" ++ natRepr i.natAbs else natRepr i.natAbs

/-- Rendering of a model number (see the header: JavaScript's double
formatting is abbreviated to a decimal / rational rendering; the claims only
rely on the character set of the result). -/
def numToString (q : ℚ) : String :=
  if q.den = 1 then intRepr q.num else intRepr q.num ++ "/" ++ natRepr q.den

/-- Embedding of JavaScript `String(v)` on the scalar universe. -/
def jsToString : JSVal → String
  | .vnull => "null"
  | .vbool b => if b then "true" else "false"
  | .vnum q => numToString q
  | .vstr s => s

/-! ## Number coercion (embedding of `Number(v)` where the engine uses it)

`jsNumber v = none` stands for a non-finite result (`NaN` or `±Infinity`):
the only consumer (`transforms.number`) collapses both to `null` via its
`Number.isFinite` guard, so the model does not distinguish them. -/

/-- Numeric value of a digit character in the given radix, if valid. -/
def radixDigit (radix : Nat) (c : Char) : Option Nat :=
  let v :=
    if '0' ≤ c ∧ c ≤ '9' then some (c.toNat - 48)
    else if 'a' ≤ c ∧ c ≤ 'f' then some (c.toNat - 87)
    else if 'A' ≤ c ∧ c ≤ 'F' then some (c.toNat - 55)
    else none
  match v with
  | some d => if d < radix then some d else none
  | none => none

/-- Parse a non-empty digit string in the given radix. -/
def parseRadix (radix : Nat) (l : List Char) : Option Nat :=
  match l with
  | [] => none
  | _ =>
    l.foldl (fun acc c =>
      match acc, radixDigit radix c with
      | some a, some d => some (a * radix + d)
      | _, _ => none) (some 0)

/-- Split a mantissa at an optional decimal point; both sides may be empty
but not simultaneously, and each side must be all digits. Returns the exact
rational value. -/
def parseMantissa (l : List Char) : Option ℚ :=
  let intPart := l.takeWhile (· ≠ '.')
  let rest := l.dropWhile (· ≠ '.')
  let fracPart := match rest with
    | '.' :: t => some t
    | _ => none
  match fracPart with
  | none =>
    match parseRadix 10 intPart with
    | some n => some (n : ℚ)
    | none => none
  | some f =>
    if f.any (fun c => c = '.') then none
    else
      match intPart, f with
      | [], [] => none
      | [], _ =>
        match parseRadix 10 f with
        | some m => some ((m : ℚ) / (10 : ℚ) ^ f.length)
        | none => none
      | _, [] =>
        match parseRadix 10 intPart with
        | some n => some (n : ℚ)
        | none => none
      | _, _ =>
        match parseRadix 10 intPart, parseRadix 10 f with
        | some n, some m => some ((n : ℚ) + (m : ℚ) / (10 : ℚ) ^ f.length)
        | _, _ => none

/-- Parse an unsigned decimal literal with optional exponent. -/
def parseUnsignedDec (l : List Char) : Option ℚ :=
  let mant := l.takeWhile (fun c => c ≠ 'e' ∧ c ≠ 'E')
  let rest := l.dropWhile (fun c => c ≠ 'e' ∧ c ≠ 'E')
  match rest with
  | [] => parseMantissa mant
  | _ :: ex =>
    let signedExp : Option Int :=
      match ex with
      | '+' :: d => (parseRadix 10 d).map Int.ofNat
      | '-' :: d => (parseRadix 10 d).map (fun n => -(n : Int))
      | d => (parseRadix 10 d).map Int.ofNat
    match parseMantissa mant, signedExp with
    | some m, some e => some (m * (10 : ℚ) ^ e)
    | _, _ => none

/-- Unsigned numeric literal: `Infinity` (non-finite, hence `none` here) or
a decimal literal. -/
def parseUnsigned (l : List Char) : Option ℚ :=
  if l = "Infinity".data then none else parseUnsignedDec l

/-- Embedding of `Number(string)` (the ECMAScript `StringNumericLiteral`
grammar, composed with the `Number.isFinite` guard of its only caller):
whitespace-trimmed; empty → `0`; `0x`/`0o`/`0b` radix literals (unsigned,
as in JavaScript); otherwise an optionally signed decimal literal. -/
def jsStrToNum (s : String) : Option ℚ :=
  let t := (jsTrim s).data
  if t = [] then some 0
  else match t with
  | '0' :: 'x' :: r => (parseRadix 16 r).map (fun n => (n : ℚ))
  | '0' :: 'X' :: r => (parseRadix 16 r).map (fun n => (n : ℚ))
  | '0' :: 'o' :: r => (parseRadix 8 r).map (fun n => (n : ℚ))
  | '0' :: 'O' :: r => (parseRadix 8 r).map (fun n => (n : ℚ))
  | '0' :: 'b' :: r => (parseRadix 2 r).map (fun n => (n : ℚ))
  | '0' :: 'B' :: r => (parseRadix 2 r).map (fun n => (n : ℚ))
  | '+' :: r => parseUnsigned r
  | '-' :: r => (parseUnsigned r).map Neg.neg
  | r => parseUnsigned r

/-- Embedding of `Number(v)` on the scalar universe (`none` = non-finite). -/
def jsNumber : JSVal → Option ℚ
  | .vnull => some 0
  | .vbool b => some (if b then 1 else 0)
  | .vnum q => some q
  | .vstr s => jsStrToNum s

/-! ## The transform registry (source lines 105–114) -/

/-- `transforms.none`: the identity transform. -/
def jsId : JSVal → JSVal := fun v => v

/-- `transforms.trim`. In this and the following component transforms the
regular-expression tests of the source are rendered as their exact
case-insensitive string comparisons: `/^true$/i.test(s)` is
`jsToLower s = "true"` and `/^N\/?A$/i.test(s)` is
`jsToUpper s ∈ {"NA", "N/A"}`. The name-indexed registry `transforms` below
folds in the `transforms[name || 'none'] || transforms.none` fallback of
`applyTransform` (unknown or empty names behave as `none`). -/
def tTrim : JSVal → JSVal := fun v =>
  if v = .vnull then v else .vstr (jsTrim (jsToString v))

/-- `transforms.upper`. -/
def tUpper : JSVal → JSVal := fun v =>
  if v = .vnull then v else .vstr (jsToUpper (jsToString v))

/-- `transforms.lower`. -/
def tLower : JSVal → JSVal := fun v =>
  if v = .vnull then v else .vstr (jsToLower (jsToString v))

/-- `transforms.nz`. -/
def tNz : JSVal → JSVal := fun v =>
  if v = .vnull then .vnull
  else
    let s := jsTrim (jsToString v)
    if s = "" ∨ jsToUpper s = "NA" ∨ jsToUpper s = "N/A" then .vnull else v

/-- `transforms.bool01`. -/
def tBool01 : JSVal → JSVal := fun v =>
  if v = .vbool true ∨ v = .vnum 1 ∨ v = .vstr "1" ∨
      jsToLower (jsToString v) = "true" then .vnum 1 else .vnum 0

/-- `transforms.number`. -/
def tNumber : JSVal → JSVal := fun v =>
  if v = .vnull then .vnull
  else if jsTrim (jsToString v) = "" then .vnull
  else match jsNumber v with
    | some n => .vnum n
    | none => .vnull

/-- `transforms.string`. -/
def tString : JSVal → JSVal := fun v =>
  if v = .vnull then .vstr "" else .vstr (jsToString v)

/-- The name-indexed registry. -/
def transforms (name : String) : JSVal → JSVal :=
  match name with
  | "trim" => tTrim
  | "upper" => tUpper
  | "lower" => tLower
  | "nz" => tNz
  | "bool01" => tBool01
  | "number" => tNumber
  | "string" => tString
  | _ => jsId

/-- A JavaScript function value as the engine sees it: it either returns a
value or throws. The registry's own transforms never throw on the scalar
universe, but `applyTransform` guards against arbitrary functions. -/
def JsFun : Type := JSVal → Except String JSVal

/-- Embedding of `applyTransform`'s `try { return fn(v) } catch { return v }`
for an arbitrary (possibly throwing) function. -/
def tryApplyTransform (fn : JsFun) (v : JSVal) : JSVal :=
  match fn v with
  | .ok w => w
  | .error _ => v

/-- The registry transforms, lifted to (non-throwing) function values. -/
def transformsE (name : String) : JsFun := fun v => .ok (transforms name v)

/-- Embedding of `applyTransform(v, name)` (source lines 144–147). -/
def applyTransform (v : JSVal) (name : String) : JSVal :=
  tryApplyTransform (transformsE name) v

/-! ## Specification-side transform semantics (for claim C7)

These definitions follow the *specification's words* (spec §4.1, "Transform
semantics are fixed and total"), independently of the source's
regex/strict-equality phrasing, to be compared with `transforms`. -/

/-- Spec-side boolean coercion: `true`, `1`, `"1"` and any case-variant of
`"true"` map to `1`; every other value maps to `0`. -/
def boolCoercionSpec : JSVal → JSVal
  | .vbool b => if b then .vnum 1 else .vnum 0
  | .vnum q => if q = 1 then .vnum 1 else .vnum 0
  | .vstr s => if s = "1" ∨ jsToLower s = "true" then .vnum 1 else .vnum 0
  | .vnull => .vnum 0

/-- Spec-side numeric coercion: `null` and blank-after-trim strings map to
`null`; unparseable values map to `null`; otherwise the numeric value. -/
def numberCoercionSpec : JSVal → JSVal
  | .vnull => .vnull
  | .vbool b => .vnum (if b then 1 else 0)
  | .vnum q => .vnum q
  | .vstr s =>
      if jsTrim s = "" then .vnull
      else match jsStrToNum s with
        | some n => .vnum n
        | none => .vnull

/-- Spec-side null-normalisation: `null`, blank, and `"N/A"` (also `"NA"`,
case-insensitively) map to `null`; every other value is left unchanged. -/
def nullNormSpec : JSVal → JSVal
  | .vnull => .vnull
  | .vstr s =>
      if jsTrim s = "" ∨ jsToUpper (jsTrim s) = "NA" ∨ jsToUpper (jsTrim s) = "N/A"
      then .vnull else .vstr s
  | v => v

/-! ### Character-set facts about rendered numbers -/

/-- The characters a rendered model number can contain. -/
def numChar (c : Char) : Prop :=
  c ∈ ['0', '1', '2', '3', '4', '5', '6', '7', '8', '9', '-', '/']

instance : DecidablePred numChar := fun c => by unfold numChar; infer_instance

theorem natDigits_numChar : ∀ n, ∀ c ∈ natDigits n, numChar c := by
  intro n
  induction n using Nat.strong_induction_on with
  | _ n ih =>
    intro c hc
    rw [natDigits] at hc
    split at hc
    · next h =>
      simp only [List.mem_singleton] at hc
      subst hc
      unfold numChar digitCh
      interval_cases n <;> decide
    · next h =>
      rcases List.mem_append.mp hc with h1 | h2
      · exact ih (n / 10) (Nat.div_lt_self (by omega) (by omega)) c h1
      · simp only [List.mem_singleton] at h2
        subst h2
        unfold numChar digitCh
        have : n % 10 < 10 := Nat.mod_lt _ (by omega)
        interval_cases h : (n % 10) <;> decide

theorem natDigits_ne_nil : ∀ n, natDigits n ≠ [] := by
  intro n
  rw [natDigits]
  split <;> simp

theorem intRepr_numChar : ∀ i, ∀ c ∈ (intRepr i).data, numChar c := by
  intro i c hc
  unfold intRepr at hc
  split at hc
  · rw [String.data_append] at hc
    rcases List.mem_append.mp hc with h1 | h2
    · simp only [show ("-" : String).data = ['-'] from rfl, List.mem_singleton] at h1
      subst h1; decide
    · exact natDigits_numChar _ c h2
  · exact natDigits_numChar _ c hc

theorem numToString_numChar : ∀ q : ℚ, ∀ c ∈ (numToString q).data, numChar c := by
  intro q c hc
  unfold numToString at hc
  split at hc
  · exact intRepr_numChar _ c hc
  · rw [String.data_append, String.data_append] at hc
    rcases List.mem_append.mp hc with h1 | h2
    · rcases List.mem_append.mp h1 with h3 | h4
      · exact intRepr_numChar _ c h3
      · simp only [show ("/" : String).data = ['/'] from rfl, List.mem_singleton] at h4
        subst h4; decide
    · exact natDigits_numChar _ c h2

theorem natRepr_ne_nil : ∀ n, (natRepr n).data ≠ [] := by
  intro n h
  exact natDigits_ne_nil n h

theorem numToString_ne_empty : ∀ q : ℚ, numToString q ≠ "" := by
  intro q h
  have hd : (numToString q).data = [] := congrArg String.data h
  unfold numToString intRepr at hd
  split at hd
  · split at hd
    · rw [String.data_append] at hd
      exact absurd (List.append_eq_nil.mp hd).1 (by decide)
    · exact natRepr_ne_nil _ hd
  · rw [String.data_append, String.data_append] at hd
    have h1 := (List.append_eq_nil.mp hd).1
    have h2 := (List.append_eq_nil.mp h1).2
    exact absurd h2 (by decide)

theorem numChar_not_ws : ∀ c, numChar c → jsWs c = false := by
  intro c hc
  unfold numChar at hc
  fin_cases hc <;> decide

theorem numChar_lower_ne_t : ∀ c, numChar c → lowerCh c ≠ 't' := by
  intro c hc
  unfold numChar at hc
  fin_cases hc <;> decide

theorem numChar_upper_ne_N : ∀ c, numChar c → upperCh c ≠ 'N' := by
  intro c hc
  unfold numChar at hc
  fin_cases hc <;> decide

theorem dropWhile_eq_of_none {α : Type} (p : α → Bool) :
    ∀ l : List α, (∀ c ∈ l, p c = false) → l.dropWhile p = l := by
  intro l h
  cases l with
  | nil => rfl
  | cons c t => simp [List.dropWhile_cons, h c (List.mem_cons_self c t)]

theorem trimChars_eq_of_none :
    ∀ l : List Char, (∀ c ∈ l, jsWs c = false) → trimChars l = l := by
  intro l h
  unfold trimChars
  rw [dropWhile_eq_of_none jsWs l h]
  rw [dropWhile_eq_of_none jsWs l.reverse (fun c hc => h c (List.mem_reverse.mp hc))]
  exact List.reverse_reverse l

theorem jsTrim_numToString (q : ℚ) : jsTrim (numToString q) = numToString q := by
  unfold jsTrim
  rw [trimChars_eq_of_none _ (fun c hc => numChar_not_ws c (numToString_numChar q c hc))]

theorem jsToLower_numToString_ne_true (q : ℚ) :
    jsToLower (numToString q) ≠ "true" := by
  intro h
  have hd : ((numToString q).data.map lowerCh) = "true".data := congrArg String.data h
  cases hl : (numToString q).data with
  | nil => rw [hl] at hd; exact absurd hd (by decide)
  | cons c t =>
    rw [hl] at hd
    have hc : numChar c := numToString_numChar q c (by rw [hl]; exact List.mem_cons_self c t)
    have : lowerCh c = 't' := by
      have := congrArg (fun l => l.head?) hd
      simpa using this
    exact numChar_lower_ne_t c hc this

theorem jsToUpper_numToString_ne_NA (q : ℚ) :
    jsToUpper (numToString q) ≠ "NA" ∧ jsToUpper (numToString q) ≠ "N/A" := by
  constructor <;> intro h
  all_goals {
    have hd : ((numToString q).data.map upperCh) = _ := congrArg String.data h
    cases hl : (numToString q).data with
    | nil => rw [hl] at hd; exact absurd hd (by decide)
    | cons c t =>
      rw [hl] at hd
      have hc : numChar c := numToString_numChar q c (by rw [hl]; exact List.mem_cons_self c t)
      have : upperCh c = 'N' := by
        have := congrArg (fun l => l.head?) hd
        simpa using this
      exact numChar_upper_ne_N c hc this
  }

theorem tBool01_eq_spec : ∀ v, tBool01 v = boolCoercionSpec v := by
  intro v
  cases v with
  | vnull => decide
  | vbool b => cases b <;> decide
  | vnum q =>
    have hne := jsToLower_numToString_ne_true q
    simp only [tBool01, boolCoercionSpec, jsToString]
    simp [hne]
  | vstr s =>
    simp only [tBool01, boolCoercionSpec, jsToString]
    simp

theorem tNumber_eq_spec : ∀ v, tNumber v = numberCoercionSpec v := by
  intro v
  cases v with
  | vnull => decide
  | vbool b => cases b <;> decide
  | vnum q =>
    simp only [tNumber, numberCoercionSpec, jsToString, jsNumber]
    simp [jsTrim_numToString q, numToString_ne_empty q]
  | vstr s =>
    simp only [tNumber, numberCoercionSpec, jsToString, jsNumber]
    simp

theorem tNz_eq_spec : ∀ v, tNz v = nullNormSpec v := by
  intro v
  cases v with
  | vnull => decide
  | vbool b => cases b <;> decide
  | vnum q =>
    have h1 := jsTrim_numToString q
    have h2 := numToString_ne_empty q
    have h3 := jsToUpper_numToString_ne_NA q
    simp only [tNz, nullNormSpec, jsToString]
    simp [h1, h2, h3.1, h3.2]
  | vstr s =>
    simp only [tNz, nullNormSpec, jsToString]
    simp

/-- **C7.** The named transforms satisfy their fixed semantics: boolean
coercion maps `true`, `1`, `"1"` and any case-variant of `"true"` to `1` and
every other value to `0`; numeric coercion maps `null` and blank-after-trim
strings to `null`, unparseable values to `null`, and otherwise to the numeric
value; null-normalisation maps `null`, blank, and `"N/A"` (also `"NA"`,
case-insensitively) to `null` and leaves other values unchanged;
stringification maps `null` to the empty string. Each registry transform is
proved pointwise equal to the specification-side function written from the
claim's words. -/
theorem transform_semantics_fixed :
    ∀ v : JSVal,
      transforms "bool01" v = boolCoercionSpec v ∧
      transforms "number" v = numberCoercionSpec v ∧
      transforms "nz" v = nullNormSpec v ∧
      transforms "string" JSVal.vnull = JSVal.vstr "" := by
  intro v
  refine ⟨?_, ?_, ?_, rfl⟩
  · exact tBool01_eq_spec v
  · exact tNumber_eq_spec v
  · exact tNz_eq_spec v

/-- **C9.** Applying a transform never fails a mapping: for every (possibly
throwing) transform function and every value, if the function throws the
original value is returned unchanged, and if it returns a value that value is
the result; in neither case does an error propagate to the caller
(`tryApplyTransform` is total). -/
theorem apply_transform_never_fails :
    ∀ (fn : JsFun) (v : JSVal),
      (∀ e, fn v = .error e → tryApplyTransform fn v = v) ∧
      (∀ w, fn v = .ok w → tryApplyTransform fn v = w) := by
  intro fn v
  constructor <;> intro x hx <;> simp [tryApplyTransform, hx]

/-- Witness for `apply_transform_never_fails`: a function that throws on
every input; applying it through the guard returns the input unchanged. -/
theorem apply_transform_never_fails_witness :
    (fun _ : JSVal => (Except.error "boom" : Except String JSVal)) (JSVal.vstr "x")
        = Except.error "boom" ∧
    tryApplyTransform (fun _ => Except.error "boom") (JSVal.vstr "x") = JSVal.vstr "x" :=
  ⟨rfl, (apply_transform_never_fails (fun _ => Except.error "boom")
    (JSVal.vstr "x")).1 "boom" rfl⟩

/-! ## Chunk partitioning (source line 102 and line 448) -/


/-- Embedding of `chunkify(arr, n)` (source line 102): successive slices of
`n` elements. The `n = 0` case is unreachable at every call site (the engine
floors the chunk size at 1 via `Math.max`, and `selectIdsByKeys` passes the
constant 500); in JavaScript it would not terminate, so the model leaves it
at the empty list. -/
def chunkify {α : Type} (arr : List α) (n : Nat) : List (List α) :=
  match arr, n with
  | [], _ => []
  | _, 0 => []
  | a :: t, m + 1 => (a :: t).take (m + 1) :: chunkify ((a :: t).drop (m + 1)) (m + 1)
termination_by arr.length
decreasing_by simp only [List.length_drop, List.length_cons]; omega

theorem chunkify_nil {α : Type} (n : Nat) : chunkify ([] : List α) n = [] := by
  rw [chunkify]

theorem chunkify_step {α : Type} (arr : List α) (n : Nat)
    (h1 : arr ≠ []) (h2 : n ≠ 0) :
    chunkify arr n = arr.take n :: chunkify (arr.drop n) n := by
  cases arr with
  | nil => exact absurd rfl h1
  | cons a t =>
    cases n with
    | zero => exact absurd rfl h2
    | succ m => rw [chunkify]

theorem chunkify_flatten {α : Type} (n : Nat) (hn : 0 < n) (arr : List α) :
    (chunkify arr n).flatten = arr := by
  cases harr : arr with
  | nil => simp [chunkify_nil]
  | cons a t =>
    rw [chunkify_step _ n (by simp) (by omega), List.flatten_cons,
      chunkify_flatten n hn (List.drop n (a :: t))]
    exact List.take_append_drop n (a :: t)
termination_by arr.length
decreasing_by simp only [harr, List.length_drop, List.length_cons]; omega

theorem chunkify_length {α : Type} (n : Nat) (hn : 0 < n) (arr : List α) :
    (chunkify arr n).length = (arr.length + n - 1) / n := by
  cases harr : arr with
  | nil =>
    rw [chunkify_nil]
    have h0 : (n - 1) / n = 0 := Nat.div_eq_of_lt (by omega)
    simp [h0]
  | cons a t =>
    rw [chunkify_step _ n (by simp) (by omega)]
    simp only [List.length_cons]
    rw [chunkify_length n hn (List.drop n (a :: t))]
    simp only [List.length_drop, List.length_cons]
    rcases Nat.lt_or_ge (t.length + 1) n with hsmall | hbig
    · rw [show t.length + 1 - n = 0 by omega]
      rw [show (0 + n - 1) / n = 0 from Nat.div_eq_of_lt (by omega)]
      rw [show (t.length + 1 + n - 1) / n = 1 from
        Nat.div_eq_of_lt_le (by omega) (by omega)]
    · rw [show t.length + 1 + n - 1 = (t.length + 1 - n + n - 1) + n by omega,
        Nat.add_div_right _ hn]
termination_by arr.length
decreasing_by simp only [harr, List.length_drop, List.length_cons]; omega

theorem chunkify_dropLast_length {α : Type} (n : Nat) (hn : 0 < n) (arr : List α) :
    ∀ c ∈ (chunkify arr n).dropLast, c.length = n := by
  intro c hc
  cases harr : arr with
  | nil => rw [harr] at hc; simp [chunkify_nil] at hc
  | cons a t =>
    rw [harr, chunkify_step _ n (by simp) (by omega)] at hc
    by_cases hrest : chunkify (List.drop n (a :: t)) n = []
    · rw [hrest] at hc
      simp at hc
    · rw [List.dropLast_cons_of_ne_nil hrest] at hc
      rcases List.mem_cons.mp hc with hcd | hcd
      · subst hcd
        rw [List.length_take]
        have hlen : n ≤ t.length + 1 := by
          by_contra hcon
          push_neg at hcon
          have hdrop : List.drop n (a :: t) = [] :=
            List.drop_eq_nil_of_le (by simp only [List.length_cons]; omega)
          rw [hdrop, chunkify_nil] at hrest
          exact hrest rfl
        simp only [List.length_cons]
        omega
      · exact chunkify_dropLast_length n hn (List.drop n (a :: t)) c hcd
termination_by arr.length
decreasing_by simp only [harr, List.length_drop, List.length_cons]; omega

/-- Embedding of the chunk selection at source line 448:
`local.txMode === 'chunk' ? chunkify(mapped, Math.max(1, local.chunkSize)) : [mapped]`. -/
def selectChunks {α : Type} (txMode : String) (chunkSize : Nat) (mapped : List α) :
    List (List α) :=
  if txMode = "chunk" then chunkify mapped (max 1 chunkSize) else [mapped]

/-- **C6.** For a mapped-row list of `M` rows: `txMode=chunk` with
`chunkSize=N` partitions it into `ceil(M / max 1 N)` chunks, each except
possibly the last of exactly `max 1 N` rows, in order (their concatenation
is the original list); every other transaction mode yields the whole list as
a single chunk. -/
theorem chunk_partitioning :
    ∀ {α : Type} (mapped : List α) (txm : String) (N : Nat),
      (selectChunks "chunk" N mapped).length
          = (mapped.length + max 1 N - 1) / max 1 N ∧
      (∀ c ∈ (selectChunks "chunk" N mapped).dropLast, c.length = max 1 N) ∧
      (selectChunks "chunk" N mapped).flatten = mapped ∧
      (txm ≠ "chunk" → selectChunks txm N mapped = [mapped]) := by
  intro α mapped txm N
  have hn : 0 < max 1 N := by omega
  refine ⟨?_, ?_, ?_, ?_⟩
  · simp only [selectChunks, if_pos rfl]
    exact chunkify_length _ hn mapped
  · simp only [selectChunks, if_pos rfl]
    exact chunkify_dropLast_length _ hn mapped
  · simp only [selectChunks, if_pos rfl]
    exact chunkify_flatten _ hn mapped
  · intro h
    simp [selectChunks, h]

/-- Witness for `chunk_partitioning` at `N = 2` over five elements, with the
non-chunk mode `"all"` discharging the conditional conjunct. -/
theorem chunk_partitioning_witness :
    selectChunks "all" 2 ([0, 1, 2, 3, 4] : List Nat) = [[0, 1, 2, 3, 4]] ∧
    (selectChunks "chunk" 2 ([0, 1, 2, 3, 4] : List Nat)).length
        = (([0, 1, 2, 3, 4] : List Nat).length + max 1 2 - 1) / max 1 2 ∧
    selectChunks "chunk" 2 ([0, 1, 2, 3, 4] : List Nat) = [[0, 1], [2, 3], [4]] :=
  ⟨(chunk_partitioning [0, 1, 2, 3, 4] "all" 2).2.2.2 (by decide),
   (chunk_partitioning [0, 1, 2, 3, 4] "all" 2).1,
   by
    simp only [selectChunks, if_true]
    rw [(by decide : max 1 2 = 2)]
    rw [chunkify_step _ _ (by decide) (by decide)]
    rw [show List.drop 2 [0, 1, 2, 3, 4] = [2, 3, 4] from rfl]
    rw [chunkify_step _ _ (by decide) (by decide)]
    rw [show List.drop 2 [2, 3, 4] = [4] from rfl]
    rw [chunkify_step _ _ (by decide) (by decide)]
    rw [show List.drop 2 [4] = ([] : List Nat) from rfl]
    rw [chunkify_nil]
    decide⟩

/-! ## Rows, maps and configuration records

JavaScript objects are association lists in insertion order; `lookupA` is
property read (`none` = `undefined`), `setA` is property write. -/

abbrev Row : Type := List (String × JSVal)

abbrev KeyMap : Type := List (String × JSVal)

abbrev CtxMaps : Type := List (String × KeyMap)

/-- Property read on an insertion-ordered object. -/
def lookupA {β : Type} (m : List (String × β)) (k : String) : Option β :=
  (m.find? (fun p => p.1 == k)).map Prod.snd

/-- Property write on an insertion-ordered object (overwrite in place or
append). -/
def setA {β : Type} (m : List (String × β)) (k : String) (v : β) :
    List (String × β) :=
  if m.any (fun p => p.1 == k) then
    m.map (fun p => if p.1 == k then (k, v) else p)
  else m ++ [(k, v)]

/-- A mapping entry's `lookup` sub-object (absent fields default to the
falsy values the source's `||` / `?.` chains produce). -/
structure LookupCfg where
  fromGroup : String := ""
  strict : Bool := false
  valueType : String := ""
  value : String := ""
deriving DecidableEq, Repr, Inhabited

/-- One entry of a group's `mapping` list. -/
structure MappingEntry where
  col : String := ""
  source : String := ""
  srcType : String := ""
  src : String := ""
  transform : String := ""
  lookup : Option LookupCfg := none
deriving DecidableEq, Repr, Inhabited

/-- A group's raw `keySpec` object as configured (before `normKeySpec`);
absent string fields are the empty string, matching the source's falsy
checks. -/
structure RawKeySpec where
  enabled : Bool := false
  «alias» : String := ""
  mode : String := ""
  columns : List String := []
  template : String := ""
  jsonata : String := ""
  separator : String := ""
  selectMissing : Bool := false
  returnPath : String := ""
  returnPathType : String := ""
  idColumn : String := ""
deriving DecidableEq, Repr, Inhabited

/-- A group's `returnRows` object. -/
structure ReturnRowsCfg where
  mode : String := ""
  idColumn : String := ""
  pathType : String := ""
  path : String := ""
deriving DecidableEq, Repr, Inhabited

/-- One group of the run configuration (source §groups). -/
structure Group where
  table : String := ""
  «alias» : String := ""
  sourceType : String := ""
  source : String := ""
  autoMap : Bool := false
  mapping : List MappingEntry := []
  conflict : String := ""
  upsertKeys : List String := []
  updateColumns : List String := []
  keySpec : RawKeySpec := {}
  returnRows : ReturnRowsCfg := {}
deriving DecidableEq, Repr, Inhabited

/-- The normalised key spec produced by `normKeySpec` (source lines
227–249). `normKeySpec` does not copy `returnPathType`, so the normalised
record has none — the publication step consequently always falls back to
`'flow'` (source line 493). -/
structure KeySpec where
  enabled : Bool := true
  «alias» : String := ""
  mode : String := ""
  columns : List String := []
  template : String := ""
  jsonata : String := ""
  separator : String := ""
  selectMissing : Bool := false
  returnPath : Option String := none
  idColumn : String := ""
deriving DecidableEq, Repr, Inhabited

abbrev KeySpecs : Type := List (String × KeySpec)

/-! ## Identifier quoting and SQL building (source lines 103, 202–225) -/

/-- Errors thrown by the SQL-building helpers. -/
inductive SqlErr where
  | invalidIdentifier (name : String)
deriving DecidableEq, Repr

/-- The quoted form `"name"` with embedded double quotes doubled
(`name.replace(/"/g, '""')` is a global single-character replacement). -/
def quoteIdent (name : String) : String :=
  "\"" ++ String.mk ((name.data.map
    (fun c => if c = '"' then ['"', '"'] else [c])).flatten) ++ "\""

/-- Embedding of `qid` (source line 103). Identifiers are strings in the
model, so of the source's `typeof name !== 'string' || !name.length` guard
only the emptiness check can fire. -/
def qid (name : String) : Except SqlErr String :=
  if name.length = 0 then .error (.invalidIdentifier name)
  else .ok (quoteIdent name)

theorem qid_ok_of_ne_empty {name : String} (h : name ≠ "") :
    qid name = .ok (quoteIdent name) := by
  unfold qid
  split
  · next hc => exact absurd (String.ext (List.length_eq_zero.mp hc)) h
  · rfl

/-- Embedding of `buildUpsert(table, keys, updateCols)` (source lines
202–211). The `table` argument is unused by the source as well. The
`.filter(Boolean)` on `keys` keeps exactly the non-empty strings. -/
def buildUpsert (_table : String) (keys : List String) (updateCols : List String) :
    Except SqlErr String :=
  if (keys.filter (fun s => s ≠ "")).length = 0 then .ok ""
  else
    ((keys.filter (fun s => s ≠ "")).mapM qid).bind (fun qs =>
      if updateCols.length = 0 then
        .ok (" ON CONFLICT (" ++ String.intercalate ", " qs ++ ") DO NOTHING")
      else
        (updateCols.mapM (fun c => (qid c).map (fun q => q ++ "=excluded." ++ q))).bind
          (fun sets => .ok (" ON CONFLICT (" ++ String.intercalate ", " qs
            ++ ") DO UPDATE SET " ++ String.intercalate ", " sets)))

/-- Embedding of `buildInsertSQL(group, cols)` (source lines 213–225). -/
def buildInsertSQL (group : Group) (cols : List String) : Except SqlErr String := do
  let table ← qid group.table
  let colList := String.intercalate ", " (← cols.mapM qid)
  let params := String.intercalate ", " (cols.map (fun _ => "?"))
  let head := "INSERT "
    ++ (if group.conflict = "ignore" then "OR IGNORE " else "")
    ++ (if group.conflict = "replace" then "OR REPLACE " else "")
    ++ "INTO " ++ table ++ " (" ++ colList ++ ") VALUES (" ++ params ++ ")"
  if group.conflict = "upsert" then
    let up ← buildUpsert group.table group.upsertKeys group.updateColumns
    return head ++ up
  else
    return head

/-! ## Key specs, key derivation and lookup resolution
(source lines 149–200, 227–267) -/

/-- Embedding of `normKeySpec(group)` (source lines 227–249). Note the
direction of the defaulting: for an (implicitly or explicitly) `byColumns`
spec with empty `columns`, the columns are inherited **from**
`group.upsertKeys` when `conflict === 'upsert'` — `upsertKeys` is never
populated from the key spec. -/
def normKeySpec (group : Group) : Option KeySpec :=
  let ks := group.keySpec
  if ¬ ks.enabled then none
  else
    let spec : KeySpec := {
      enabled := true
      «alias» := if ks.«alias» ≠ "" then ks.«alias»
        else if group.«alias» ≠ "" then group.«alias» else group.table
      mode := if ks.mode ≠ "" then ks.mode else "byColumns"
      columns := ks.columns
      template := ks.template
      jsonata := ks.jsonata
      separator := if ks.separator ≠ "" then ks.separator else "|"
      selectMissing := ks.selectMissing
      returnPath := if ks.returnPath = "" then none else some ks.returnPath
      idColumn := if ks.idColumn ≠ "" then ks.idColumn else "id" }
    if (ks.mode = "" ∨ ks.mode = "byColumns") ∧ spec.columns = [] ∧
        group.conflict = "upsert" ∧ group.upsertKeys ≠ [] then
      some { spec with columns := group.upsertKeys }
    else some spec

/-- The `String(x ?? '')` pattern used on row fields: `undefined`/`null`
become the empty string, anything else is stringified. -/
def strOrEmpty (x : Option JSVal) : String :=
  match x with
  | none => ""
  | some .vnull => ""
  | some v => jsToString v

/-- Scanner for the `/\{\{([^}]+)\}\}/g` template replacement of
`keyOfMappedRow` (source line 258): a match is `{{`, one or more
non-`}` characters, then `}}`; the captured name is trimmed and looked up in
the mapped row, missing/null values becoming the empty string; unmatched
text is copied verbatim (on a failed match the scan resumes one character
later, as a global regex does). -/
def tmplGo (l : List Char) (mapped : Row) : List Char :=
  match l with
  | [] => []
  | '{' :: '{' :: rest =>
    let inner := rest.takeWhile (fun c => c ≠ '}')
    match hafter : rest.dropWhile (fun c => c ≠ '}') with
    | '}' :: '}' :: tail =>
      if inner = [] then '{' :: tmplGo ('{' :: rest) mapped
      else
        let key := jsTrim (String.mk inner)
        (strOrEmpty (lookupA mapped key)).data ++ tmplGo tail mapped
    | _ => '{' :: tmplGo ('{' :: rest) mapped
  | c :: rest => c :: tmplGo rest mapped
termination_by l.length
decreasing_by
  all_goals simp only [List.length_cons]
  · omega
  · have hle : (rest.dropWhile (fun c => decide (c ≠ '}'))).length ≤ rest.length :=
      (List.dropWhile_sublist _).length_le
    rw [hafter] at hle
    simp only [List.length_cons] at hle
    omega
  · omega
  · omega

/-- Embedding of `keyOfMappedRow(mapped, spec)` (source lines 251–261). -/
def keyOfMappedRow (mapped : Row) (spec : Option KeySpec) : String :=
  match spec with
  | none => ""
  | some spec =>
    let S := if spec.separator ≠ "" then spec.separator else "|"
    if spec.mode = "byColumns" ∧ spec.columns ≠ [] then
      String.intercalate S (spec.columns.map (fun c => strOrEmpty (lookupA mapped c)))
    else if spec.mode = "byTemplate" ∧ spec.template ≠ "" then
      String.mk (tmplGo spec.template.data mapped)
    else ""

/-- Embedding of `buildKeyConcatExpr(spec)` (source lines 263–267): the SQL
key expression, `COALESCE("col",'')` terms joined by `|| '<sep>' ||` with
single quotes in the separator doubled. -/
def buildKeyConcatExpr (spec : KeySpec) : Except SqlErr String := do
  let S := String.mk (((if spec.separator ≠ "" then spec.separator else "|").data.map
    (fun c => if c = '\'' then ['\'', '\''] else [c])).flatten)
  let parts ← spec.columns.mapM (fun c => do
    let q ← qid c
    return "COALESCE(" ++ q ++ ",'')")
  return String.intercalate (" || '" ++ S ++ "' || ") parts

/-- Embedding of `composeKeyWithSpec(spec, provided, sep)` (source lines
179–189) on the scalar universe. The array/object decomposition branches
(and with them the separator) apply only to non-scalar `provided` values and
therefore do not appear; for scalars every remaining branch stringifies, with
`null` going to the empty string via `String(provided ?? '')` (and to
`''` directly in the no-spec/no-mode branch). -/
def composeKeyWithSpec (spec : Option KeySpec) (provided : JSVal) (_sep : String) :
    String :=
  match spec with
  | none => if provided = .vnull then "" else jsToString provided
  | some sp =>
    if sp.mode = "" then (if provided = .vnull then "" else jsToString provided)
    else match provided with
      | .vstr s => s
      | .vnum q => numToString q
      | .vnull => ""
      | v => jsToString v

/-- Embedding of `resolveLookupId(node, fromAlias, ctxMaps, keySpecs,
provided, _childRow)` (source lines 191–200). Every `ctxMaps` entry the
engine ever publishes carries a (possibly empty) `map`, so the source's
`!ctx || !ctx.map` test fires exactly when the alias is absent; that branch
also emits the non-fatal `lookup map missing` warning, a side channel not
carried by this pure function. A stored `null` id behaves as a miss for the
caller (`ctx.map.get(key) ?? null` followed by the caller's `id == null`
test), so it is collapsed to `none` here. -/
def resolveLookupId (ctxMaps : CtxMaps) (keySpecs : KeySpecs) (fromAlias : String)
    (provided : JSVal) : Option JSVal :=
  match lookupA ctxMaps fromAlias with
  | none => none
  | some km =>
    let spec := lookupA keySpecs fromAlias
    let key := composeKeyWithSpec spec provided
      (match spec with | some sp => sp.separator | none => "")
    match lookupA km key with
    | none => none
    | some .vnull => none
    | some v => some v

/-! ## Row mapping (source lines 149–177) -/

/-- Errors thrown by `mapRow`. -/
inductive MapErr where
  | lookupFailed (fromGroup : String) (keyShow : String)
deriving DecidableEq, Repr

/-- The failure message's key rendering (source line 167):
`typeof val === 'object' ? JSON.stringify(val) : String(val)`. On the scalar
universe only `null` has `typeof 'object'`, and `JSON.stringify(null)` is
the string `"null"`, which coincides with `String(null)`. -/
def keyShow (val : JSVal) : String := jsToString val

/-- The external typed value resolver (`typedGet`, source lines 116–142),
abstract per spec §6: resolves `(type, selector)` against the current source
row. It is total — the source catches expression errors internally and
returns `undefined`, which the scalar model folds into `vnull`. -/
def Resolver : Type := String → String → Row → JSVal

/-- The mapping loop of `mapRow` for explicit (non-`autoMap`) mappings
(source lines 156–175), building the output row column by column. -/
def mapEntries (resolve : Resolver) (ctx : CtxMaps) (ksMap : KeySpecs) :
    List MappingEntry → Row → Row → Except MapErr Row
  | [], _, out => .ok out
  | m :: rest, srcRow, out =>
    if m.col = "" then mapEntries resolve ctx ksMap rest srcRow out
    else if m.source = "lookup" then
      let lk := m.lookup.getD {}
      let fromGroup := lk.fromGroup
      let strict := lk.strict
      let vt := if lk.valueType = "" then "str" else lk.valueType
      let val := resolve vt lk.value srcRow
      let id := resolveLookupId ctx ksMap fromGroup val
      if id = none ∧ strict then
        .error (.lookupFailed fromGroup (keyShow val))
      else
        mapEntries resolve ctx ksMap rest srcRow (setA out m.col (id.getD .vnull))
    else
      let raw := resolve (if m.srcType = "" then "str" else m.srcType) m.src srcRow
      mapEntries resolve ctx ksMap rest srcRow (setA out m.col (applyTransform raw (if m.transform = "" then "none" else m.transform)))

/-- Embedding of `mapRow(RED, node, msg, group, srcRow)` (source lines
149–177). Source rows are modelled as objects (`Row`); the `autoMap` branch
for non-object rows (which yields `{}`) is therefore not reachable in the
model. The context maps and key specs reach the function as separate
arguments instead of the `_ctxMaps`/`_keySpecs` fields the handler attaches
to a copy of the group. -/
def mapRow (resolve : Resolver) (g : Group) (ctx : CtxMaps) (ksMap : KeySpecs)
    (srcRow : Row) : Except MapErr Row :=
  if g.autoMap then .ok srcRow
  else mapEntries resolve ctx ksMap g.mapping srcRow []

/-! ## Claim C3: upsert clause generation -/

/-- The base (pre-conflict-clause) statement text `buildInsertSQL` produces
for an `upsert` group: no `OR` clause and no `ON CONFLICT` suffix. -/
def baseInsertSQL (g : Group) (cols : List String) : String :=
  "INSERT INTO " ++ quoteIdent g.table ++ " ("
    ++ String.intercalate ", " (cols.map quoteIdent) ++ ") VALUES ("
    ++ String.intercalate ", " (cols.map (fun _ => "?")) ++ ")"

/-- The `upsertKeys` that survive `buildUpsert`'s `.filter(Boolean)`. -/
def truthyKeys (g : Group) : List String := g.upsertKeys.filter (fun s => s ≠ "")

theorem mapM_qid_ok :
    ∀ (l : List String), (∀ c ∈ l, c ≠ "") → l.mapM qid = .ok (l.map quoteIdent) := by
  intro l h
  induction l with
  | nil => rfl
  | cons a t ih =>
    rw [List.mapM_cons, qid_ok_of_ne_empty (h a (List.mem_cons_self a t)),
      ih (fun c hc => h c (List.mem_cons_of_mem a hc))]
    rfl

theorem mapM_setExpr_ok :
    ∀ (l : List String), (∀ c ∈ l, c ≠ "") →
      l.mapM (fun c => (qid c).map (fun q => q ++ "=excluded." ++ q)) =
      Except.ok (ε := SqlErr) (l.map (fun c => quoteIdent c ++ "=excluded." ++ quoteIdent c)) := by
  intro l h
  induction l with
  | nil => rfl
  | cons a t ih =>
    rw [List.mapM_cons, qid_ok_of_ne_empty (h a (List.mem_cons_self a t)),
      ih (fun c hc => h c (List.mem_cons_of_mem a hc))]
    rfl

theorem buildUpsert_no_truthy_keys (t : String) (keys upd : List String)
    (hk : keys.filter (fun s => s ≠ "") = []) :
    buildUpsert t keys upd = .ok "" := by
  unfold buildUpsert
  rw [hk]
  rfl

theorem buildUpsert_do_nothing (t : String) (keys upd : List String)
    (hk : keys.filter (fun s => s ≠ "") ≠ []) (hupd : upd = []) :
    buildUpsert t keys upd = .ok (" ON CONFLICT ("
      ++ String.intercalate ", " ((keys.filter (fun s => s ≠ "")).map quoteIdent)
      ++ ") DO NOTHING") := by
  have hkeys : ∀ k ∈ keys.filter (fun s => s ≠ ""), k ≠ "" := by
    intro k hkm
    simpa using List.of_mem_filter hkm
  unfold buildUpsert
  rw [if_neg (by simpa [List.length_eq_zero] using hk)]
  rw [mapM_qid_ok _ hkeys]
  subst hupd
  rfl

theorem buildUpsert_do_update (t : String) (keys upd : List String)
    (hk : keys.filter (fun s => s ≠ "") ≠ []) (hupd : upd ≠ [])
    (hupdne : ∀ c ∈ upd, c ≠ "") :
    buildUpsert t keys upd = .ok (" ON CONFLICT ("
      ++ String.intercalate ", " ((keys.filter (fun s => s ≠ "")).map quoteIdent)
      ++ ") DO UPDATE SET " ++ String.intercalate ", "
        (upd.map (fun c => quoteIdent c ++ "=excluded." ++ quoteIdent c))) := by
  have hkeys : ∀ k ∈ keys.filter (fun s => s ≠ ""), k ≠ "" := by
    intro k hkm
    simpa using List.of_mem_filter hkm
  unfold buildUpsert
  rw [if_neg (by simpa [List.length_eq_zero] using hk)]
  rw [mapM_qid_ok _ hkeys]
  show (if upd.length = 0 then _ else _) = _
  rw [if_neg (by simpa [List.length_eq_zero] using hupd)]
  rw [mapM_setExpr_ok _ hupdne]
  rfl

theorem buildInsertSQL_upsert_decomp (g : Group) (cols : List String)
    (hconf : g.conflict = "upsert") (htab : g.table ≠ "") (hcols : ∀ c ∈ cols, c ≠ "") :
    buildInsertSQL g cols =
      (buildUpsert g.table g.upsertKeys g.updateColumns).bind
        (fun up => Except.ok (baseInsertSQL g cols ++ up)) := by
  unfold buildInsertSQL
  rw [qid_ok_of_ne_empty htab, mapM_qid_ok cols hcols]
  simp only [hconf]
  rfl

/-- The group of the C3 counterexample: `conflict=upsert`, empty
`upsertKeys`, and an enabled `byColumns` key spec with non-empty columns. -/
def upsertC3Group : Group :=
  { table := "t"
    conflict := "upsert"
    upsertKeys := []
    keySpec := { enabled := true, mode := "byColumns", columns := ["code"] } }

/-- **C3 (counterexample).** For a group with `conflict=upsert`, empty
`upsertKeys` and a `byColumns` key spec on the non-empty column list
`["code"]`, the generated statement is a plain parameterised INSERT with no
`ON CONFLICT` clause at all — `upsertKeys` is never defaulted from
`keySpec.columns`, so the claim's "always carries an ON CONFLICT clause"
fails here. -/
theorem upsert_empty_keys_no_conflict_clause :
    upsertC3Group.conflict = "upsert" ∧
    upsertC3Group.upsertKeys = [] ∧
    upsertC3Group.keySpec.mode = "byColumns" ∧
    upsertC3Group.keySpec.columns = ["code"] ∧
    buildInsertSQL upsertC3Group ["a"] = .ok "INSERT INTO \"t\" (\"a\") VALUES (?)" ∧
    ¬ ("ON CONFLICT".data <:+: "INSERT INTO \"t\" (\"a\") VALUES (?)".data) := by
  refine ⟨rfl, rfl, rfl, rfl, ?_, by decide⟩
  rw [buildInsertSQL_upsert_decomp upsertC3Group ["a"] rfl (by decide) (by decide)]
  rw [buildUpsert_no_truthy_keys upsertC3Group.table upsertC3Group.upsertKeys
    upsertC3Group.updateColumns (by decide)]
  rfl

/-- **C3 (amended).** For `conflict=upsert` the statement carries an
`ON CONFLICT` clause exactly when `upsertKeys` contains a non-empty name
after `.filter(Boolean)`: with no surviving key the statement is the plain
INSERT; with surviving keys the clause is `DO NOTHING` when `updateColumns`
is empty and `DO UPDATE SET col=excluded.col[, ...]` otherwise. The
defaulting runs in the opposite direction to the claim: an enabled
(implicitly or explicitly) `byColumns` key spec with empty `columns`
inherits `columns` from `upsertKeys` via `normKeySpec`, never vice versa. -/
theorem upsert_clause_iff_truthy_keys :
    ∀ (g : Group) (cols : List String),
      g.conflict = "upsert" → g.table ≠ "" → (∀ c ∈ cols, c ≠ "") →
      ((truthyKeys g = [] → buildInsertSQL g cols = .ok (baseInsertSQL g cols)) ∧
       (truthyKeys g ≠ [] → g.updateColumns = [] →
         buildInsertSQL g cols = .ok (baseInsertSQL g cols
           ++ " ON CONFLICT (" ++ String.intercalate ", " ((truthyKeys g).map quoteIdent)
           ++ ") DO NOTHING")) ∧
       (truthyKeys g ≠ [] → g.updateColumns ≠ [] → (∀ c ∈ g.updateColumns, c ≠ "") →
         buildInsertSQL g cols = .ok (baseInsertSQL g cols
           ++ " ON CONFLICT (" ++ String.intercalate ", " ((truthyKeys g).map quoteIdent)
           ++ ") DO UPDATE SET " ++ String.intercalate ", "
             (g.updateColumns.map (fun c => quoteIdent c ++ "=excluded." ++ quoteIdent c)))) ∧
       (g.keySpec.enabled = true → (g.keySpec.mode = "" ∨ g.keySpec.mode = "byColumns") →
         g.keySpec.columns = [] → g.upsertKeys ≠ [] →
         (normKeySpec g).map KeySpec.columns = some g.upsertKeys)) := by
  intro g cols hconf htab hcols
  have hbase := buildInsertSQL_upsert_decomp g cols hconf htab hcols
  refine ⟨?_, ?_, ?_, ?_⟩
  · intro hk
    rw [hbase, buildUpsert_no_truthy_keys g.table g.upsertKeys g.updateColumns hk]
    show Except.ok (baseInsertSQL g cols ++ "") = _
    rw [String.append_empty]
  · intro hk hupd
    rw [hbase, buildUpsert_do_nothing g.table g.upsertKeys g.updateColumns hk hupd]
    show Except.ok (baseInsertSQL g cols ++ _) = _
    simp only [truthyKeys, String.append_assoc]
  · intro hk hupd hupdne
    rw [hbase, buildUpsert_do_update g.table g.upsertKeys g.updateColumns hk hupd hupdne]
    show Except.ok (baseInsertSQL g cols ++ _) = _
    simp only [truthyKeys, String.append_assoc]
  · intro hen hmode hcolsempty hupne
    unfold normKeySpec
    rw [if_neg (by simp [hen])]
    rw [if_pos ⟨hmode, by simpa using hcolsempty, hconf, hupne⟩]
    rfl

/-- A concrete upsert group with one surviving key and one update column,
used by the witness below. -/
def upsertWitnessGroup : Group :=
  { table := "t"
    conflict := "upsert"
    upsertKeys := ["k", ""]
    updateColumns := ["u"] }

/-- Witness for `upsert_clause_iff_truthy_keys` at `upsertWitnessGroup`. -/
theorem upsert_clause_iff_truthy_keys_witness :
    truthyKeys upsertWitnessGroup ≠ [] ∧
    buildInsertSQL upsertWitnessGroup ["a"] =
      .ok ("INSERT INTO \"t\" (\"a\") VALUES (?)"
        ++ " ON CONFLICT (\"k\") DO UPDATE SET \"u\"=excluded.\"u\"") :=
  ⟨by decide,
   by
    have h := (upsert_clause_iff_truthy_keys upsertWitnessGroup
      ["a"] rfl (by decide) (by decide)).2.2.1 (by decide) (by decide) (by decide)
    rw [h]
    rfl⟩

/-- **C8.** For a lookup-path mapping entry: if lookup resolution yields
null and the entry's `strict` flag is set, mapping fails immediately with an
error naming the source alias and the stringified key; otherwise the
resolved id (or null) is assigned to the destination column and mapping
continues with the remaining entries. -/
theorem strict_lookup_failure :
    ∀ (resolve : Resolver) (ctx : CtxMaps) (ksMap : KeySpecs) (m : MappingEntry)
      (rest : List MappingEntry) (srcRow out : Row) (lk : LookupCfg)
      (val : JSVal) (id : Option JSVal),
      m.col ≠ "" → m.source = "lookup" → m.lookup = some lk →
      val = resolve (if lk.valueType = "" then "str" else lk.valueType) lk.value srcRow →
      id = resolveLookupId ctx ksMap lk.fromGroup val →
      ((id = none ∧ lk.strict = true →
          mapEntries resolve ctx ksMap (m :: rest) srcRow out =
            .error (.lookupFailed lk.fromGroup (keyShow val))) ∧
       (¬ (id = none ∧ lk.strict = true) →
          mapEntries resolve ctx ksMap (m :: rest) srcRow out =
            mapEntries resolve ctx ksMap rest srcRow
              (setA out m.col (id.getD .vnull)))) := by
  intro resolve ctx ksMap m rest srcRow out lk val id hcol hsrc hlk hval hid
  have step : mapEntries resolve ctx ksMap (m :: rest) srcRow out =
      if id = none ∧ lk.strict = true then
        .error (.lookupFailed lk.fromGroup (keyShow val))
      else
        mapEntries resolve ctx ksMap rest srcRow (setA out m.col (id.getD .vnull)) := by
    rw [mapEntries]
    rw [if_neg (by simpa using hcol), if_pos hsrc, hlk]
    simp only [Option.getD_some]
    rw [← hval, ← hid]
  constructor
  · intro hc
    rw [step, if_pos hc]
  · intro hc
    rw [step, if_neg hc]

/-- The lookup configuration of the C8 witness: strict lookup against the
alias `"P"`. -/
def c8Lookup : LookupCfg := { fromGroup := "P", strict := true }

/-- The mapping entry of the C8 witness. -/
def c8Entry : MappingEntry :=
  { col := "dept_id", source := "lookup", lookup := some c8Lookup }

/-- Witness for `strict_lookup_failure`: with no context map published for
alias `"P"`, the strict lookup entry fails the row with an error naming the
alias and the stringified key. -/
theorem strict_lookup_failure_witness :
    resolveLookupId [] [] "P" (.vstr "k7") = none ∧
    mapEntries (fun _ _ _ => .vstr "k7") [] [] [c8Entry] [] [] =
      .error (.lookupFailed "P" "k7") :=
  ⟨rfl,
   (strict_lookup_failure (fun _ _ _ => .vstr "k7") [] [] c8Entry [] [] [] c8Lookup
      (.vstr "k7") none (by decide) rfl rfl rfl rfl).1 ⟨rfl, rfl⟩⟩

/-! ## The run orchestrator (the node's input handler, source lines 351–537)

The model starts after the database has been opened (database-path
resolution and the PRAGMA block are external interactions: PRAGMA failures
only warn and change no engine state). The sqlite driver and the typed
value / row-source resolvers are oracles in `Env`. The model records the
transaction-control statements issued (`BEGIN`/`COMMIT`/`ROLLBACK`) and the
final `db.close()` as a trace. -/

/-- Database lifecycle events the model traces. -/
inductive Event where
  | begin
  | commit
  | rollback
  | close
deriving DecidableEq, Repr

/-- The `node.warn` signals of the group pipeline that the model records
(source lines 445, 488 and 514). -/
inductive Warning where
  | noColumns (al : String)
  | skipMapBuild (al : String)
  | returnRowsSkipped (al : String)
deriving DecidableEq, Repr

/-- Errors that unwind to the input handler's outer catch. -/
inductive RunErr where
  | map (e : MapErr)
  | sql (e : SqlErr)
  | prepare (sql : String)
  | exec (sql : String)
deriving DecidableEq, Repr

/-- Per-table counters (`byTable[tableName]`, source line 421). -/
structure Counters where
  inserted : Nat := 0
  updated : Nat := 0
  errors : Nat := 0
  skipped : Nat := 0
  total : Nat := 0
deriving DecidableEq, Repr

/-- Run-wide counters (`totals`, source line 386). -/
structure Totals where
  inserted : Nat := 0
  updated : Nat := 0
  errors : Nat := 0
  skipped : Nat := 0
deriving DecidableEq, Repr

/-- A value written to an external sink (`assignTypedPath`). -/
inductive SinkVal where
  | mapObj (m : KeyMap)
  | outRows (rows : List (Option JSVal × Row))
deriving DecidableEq, Repr

/-- One external sink write: path type, path, and value. The `outRows`
entries model `{action: 'affected', id, data}` (the constant `action` field
is dropped; `id` is `none` when `map.get(k)` is `undefined`). -/
structure SinkWrite where
  pathType : String
  path : String
  value : SinkVal
deriving DecidableEq, Repr

/-- The mutable run state threaded through the handler. -/
structure RunState where
  totals : Totals := {}
  byTable : List (String × Counters) := []
  ctxMaps : CtxMaps := []
  keySpecs : KeySpecs := []
  trace : List Event := []
  warnings : List Warning := []
  sink : List SinkWrite := []
deriving DecidableEq, Repr

/-- The effective run configuration (`local`, source lines 368–377),
already normalised by that construction. -/
structure LocalCfg where
  txMode : String := "perTable"
  chunkSize : Nat := 500
  continueOnError : Bool := false
  groups : List Group := []
deriving Repr, Inhabited

/-- The run summary (source lines 523–528; `timings` is wall-clock time and
is outside the model). -/
structure Summary where
  ok : Bool
  counts : Totals
  tables : List (String × Counters)
deriving DecidableEq, Repr

/-- The external collaborators: typed value resolver (for mapping entries),
row-source resolver (`none` = non-array source, degraded to the empty list
by the handler), and the sqlite driver's per-statement behaviour. -/
structure Env where
  resolveVal : Resolver
  resolveSource : String → String → Option (List Row)
  prepareOk : String → Bool
  rowOk : String → List JSVal → Bool
  dbAll : String → List String → List Row

/-- Append a trace event unless the transaction mode is `off`. -/
def pushEvent (mode : String) (e : Event) (st : RunState) : RunState :=
  if mode = "off" then st else { st with trace := st.trace ++ [e] }

/-- Embedding of `beginTx(mode, db)` (source line 274). -/
def beginTx (mode : String) (st : RunState) : RunState := pushEvent mode .begin st

/-- Embedding of `commitTx(mode, db)` (source line 275). -/
def commitTx (mode : String) (st : RunState) : RunState := pushEvent mode .commit st

/-- Embedding of `rollbackTx(mode, db)` (source line 276); its failures are
swallowed by the source, so the model has no failing rollback. -/
def rollbackTx (mode : String) (st : RunState) : RunState := pushEvent mode .rollback st

/-- Update (creating on first touch, like `byTable[t] = byTable[t] || {…0}`)
the per-table counters. -/
def updTable (st : RunState) (tbl : String) (f : Counters → Counters) : RunState :=
  { st with byTable :=
      if st.byTable.any (fun p => p.1 == tbl) then
        st.byTable.map (fun p => if p.1 == tbl then (p.1, f p.2) else p)
      else st.byTable ++ [(tbl, f {})] }

/-- `per.inserted++; totals.inserted++`. -/
def countIns (tbl : String) (st : RunState) : RunState :=
  let st := updTable st tbl (fun c => { c with inserted := c.inserted + 1 })
  { st with totals := { st.totals with inserted := st.totals.inserted + 1 } }

/-- `per.updated++; totals.updated++`. -/
def countUpd (tbl : String) (st : RunState) : RunState :=
  let st := updTable st tbl (fun c => { c with updated := c.updated + 1 })
  { st with totals := { st.totals with updated := st.totals.updated + 1 } }

/-- `per.errors++; totals.errors++`. -/
def countErr (tbl : String) (st : RunState) : RunState :=
  let st := updTable st tbl (fun c => { c with errors := c.errors + 1 })
  { st with totals := { st.totals with errors := st.totals.errors + 1 } }

/-- Add `n` row errors at once (the mapping loop's accumulated
`per.errors++; totals.errors++` increments). -/
def addErrs (st : RunState) (tbl : String) (n : Nat) : RunState :=
  let st := updTable st tbl (fun c => { c with errors := c.errors + n })
  { st with totals := { st.totals with errors := st.totals.errors + n } }

/-- The mapping loop (source lines 429–438): maps each source row,
collecting mapped rows and counting failures; a failure aborts the loop
(returning the error) unless `continueOnError`. -/
def mapRows (env : Env) (cont : Bool) (g : Group) (ctx : CtxMaps) (ksMap : KeySpecs) :
    List Row → List Row → Nat → (List Row × Nat × Option MapErr)
  | [], acc, errs => (acc.reverse, errs, none)
  | r :: rest, acc, errs =>
    match mapRow env.resolveVal g ctx ksMap r with
    | .ok m => mapRows env cont g ctx ksMap rest (m :: acc) errs
    | .error e =>
      if cont then mapRows env cont g ctx ksMap rest acc (errs + 1)
      else (acc.reverse, errs + 1, some e)

/-- The per-row execution loop of one chunk (source lines 455–468):
positional parameter binding with `undefined → null`, success counted as
updated for `replace`/`upsert` and inserted otherwise, failures counted and
(unless `continueOnError`) thrown to the chunk's catch. -/
def execRows (env : Env) (cont : Bool) (g : Group) (cols : List String) (sql : String) :
    List Row → RunState → (RunState × Option RunErr)
  | [], st => (st, none)
  | r :: rest, st =>
    let params := cols.map (fun c => (lookupA r c).getD .vnull)
    if env.rowOk sql params then
      let st := if g.conflict = "replace" ∨ g.conflict = "upsert"
        then countUpd g.table st else countIns g.table st
      execRows env cont g cols sql rest st
    else
      let st := countErr g.table st
      if cont then execRows env cont g cols sql rest st
      else (st, some (.exec sql))

/-- One chunk (source lines 450–475): begin scope, build and prepare the
statement, run the rows, finalize (modelled as always succeeding) and
commit; on any error roll the scope back and rethrow unless
`continueOnError`. -/
def runChunk (env : Env) (cont : Bool) (txm : String) (g : Group) (cols : List String)
    (st : RunState) (ch : List Row) : RunState × Option RunErr :=
  let st := beginTx txm st
  let body :=
    match buildInsertSQL g cols with
    | .error e => (st, some (RunErr.sql e))
    | .ok sql =>
      if env.prepareOk sql then execRows env cont g cols sql ch st
      else (st, some (RunErr.prepare sql))
  match body with
  | (st, none) => (commitTx txm st, none)
  | (st, some e) =>
    let st := rollbackTx txm st
    if cont then (st, none) else (st, some e)

/-- The chunk loop (source line 450): a propagated chunk error aborts the
remaining chunks. -/
def execPhase (env : Env) (cont : Bool) (txm : String) (g : Group) (cols : List String) :
    List (List Row) → RunState → RunState × Option RunErr
  | [], st => (st, none)
  | ch :: rest, st =>
    match runChunk env cont txm g cols st ch with
    | (st', none) => execPhase env cont txm g cols rest st'
    | (st', some e) => (st', some e)

/-- `Array.from(new Set(arr))`: first occurrences, in order. -/
def uniq (arr : List String) : List String := arr.eraseDups

/-- `String(x)` where `x` may be `undefined` (missing field). -/
def strOrUndef (x : Option JSVal) : String :=
  match x with
  | none => "undefined"
  | some v => jsToString v

/-- Embedding of `selectIdsByKeys(db, group, spec, keys, chunkSize = 500)`
(source lines 541–556): re-select `idColumn` and the composite key
expression for the distinct keys (batched by `chunkify`), assembling the
key→id map from the oracle's rows. A row id that is `undefined` is stored
and later read back through `?? null`, so it is collapsed to `vnull`. -/
def selectIdsByKeys (env : Env) (group : Group) (spec : KeySpec) (keys : List String)
    (chunkSize : Nat) : Except SqlErr KeyMap := do
  if keys.length = 0 then return []
  else if ¬ (spec.mode = "byColumns" ∧ spec.columns ≠ []) then return []
  else
    let idCol ← qid (if spec.idColumn ≠ "" then spec.idColumn else "id")
    let expr ← buildKeyConcatExpr spec
    let table ← qid group.table
    let chunks := chunkify (uniq keys) chunkSize
    return chunks.foldl (fun out ch =>
      let placeholders := String.intercalate ", " (ch.map (fun _ => "?"))
      let sql := "SELECT " ++ idCol ++ " AS id, (" ++ expr ++ ") AS _k FROM " ++ table
        ++ " WHERE (" ++ expr ++ ") IN (" ++ placeholders ++ ")"
      (env.dbAll sql ch).foldl (fun out r =>
        setA out (strOrUndef (lookupA r "_k")) ((lookupA r "id").getD .vnull)) out) []

/-- The post-insert key-map build and publication step (source lines
477–495), for a group whose (enabled) normalised key spec is `ks`: derive
the keys, re-select the id map for a `byColumns` spec (anything else —
notably `byTemplate` — warns and leaves the map empty), publish
`ctxMaps[alias] = {map}`, and write the map object to the configured return
path (always with path type `'flow'`, since `normKeySpec` drops
`returnPathType`). -/
def publishPhase (env : Env) (g : Group) (al : String) (ks : KeySpec)
    (mapped : List Row) (st : RunState) : RunState × Option RunErr :=
  let keys :=
    if ks.mode = "byColumns" ∧ ks.columns ≠ [] then
      mapped.map (fun r => keyOfMappedRow r (some ks))
    else if ks.mode = "byTemplate" ∧ ks.template ≠ "" then
      mapped.map (fun r => keyOfMappedRow r (some ks))
    else []
  let mapE : Except SqlErr (KeyMap × Bool) :=
    if ks.mode = "byColumns" ∧ ks.columns ≠ [] then
      (selectIdsByKeys env g ks keys 500).map (fun m => (m, false))
    else Except.ok ([], true)
  match mapE with
  | .error e => (st, some (.sql e))
  | .ok (map, warned) =>
    let st := if warned then { st with warnings := st.warnings ++ [.skipMapBuild al] } else st
    let st := { st with ctxMaps := setA st.ctxMaps al map }
    match ks.returnPath with
    | some p => ({ st with sink := st.sink ++ [{ pathType := "flow", path := p, value := .mapObj map }] }, none)
    | none => (st, none)

/-- The return-rows projection step (source lines 497–516): requires the
group's registered key spec to be `byColumns` with columns (otherwise warns
and skips); re-selects a fresh key map and emits one
`(id?, mappedRow)` pair per mapped row to the configured sink path. -/
def returnRowsPhase (env : Env) (g : Group) (al : String) (mapped : List Row)
    (st : RunState) : RunState × Option RunErr :=
  let rr := g.returnRows
  if rr.mode = "" ∨ rr.mode = "none" then (st, none)
  else
    match lookupA st.keySpecs al with
    | some ks2 =>
      if ks2.mode = "byColumns" ∧ ks2.columns ≠ [] then
        let keys := mapped.map (fun r => keyOfMappedRow r (some ks2))
        match selectIdsByKeys env g ks2 keys 500 with
        | .error e => (st, some (.sql e))
        | .ok map =>
          let outRows := mapped.map (fun r => (lookupA map (keyOfMappedRow r (some ks2)), r))
          let pathType := if rr.pathType ≠ "" then rr.pathType else "msg"
          let path := if rr.path ≠ "" then rr.path else "sqlite." ++ al ++ ".rows"
          ({ st with sink := st.sink ++
            [{ pathType := pathType, path := path, value := .outRows outRows }] }, none)
      else ({ st with warnings := st.warnings ++ [.returnRowsSkipped al] }, none)
    | none => ({ st with warnings := st.warnings ++ [.returnRowsSkipped al] }, none)

/-- The alias a group publishes and registers under (source line 412). -/
def declaredAlias (g : Group) : String :=
  if g.«alias» ≠ "" then g.«alias» else g.table

/-- Registration of the group's normalised key spec under its alias
(source line 427). -/
def registerSpec (st : RunState) (al : String) (ks? : Option KeySpec) : RunState :=
  match ks? with
  | some k => if k.enabled then { st with keySpecs := setA st.keySpecs al k } else st
  | none => st

/-- The part of the group step from the empty-`mapped` check onwards
(source lines 439–516), factored out of `runGroup`: publish an empty map
when nothing mapped but `selectMissing` asks for one; otherwise derive the
columns, execute the chunks, publish the key map (4.7) and project return
rows (4.8). -/
def groupBody (env : Env) (cfg : LocalCfg) (g : Group) (al : String)
    (ks? : Option KeySpec) (mapped : List Row) (st : RunState) :
    RunState × Option RunErr :=
  if mapped = [] then
    match ks? with
    | some k =>
      if k.enabled ∧ k.selectMissing then
        ({ st with ctxMaps := setA st.ctxMaps al [] }, none)
      else (st, none)
    | none => (st, none)
  else
    let cols := if g.autoMap then (mapped.headD []).map Prod.fst
      else (g.mapping.map MappingEntry.col).filter (fun c => c ≠ "")
    if cols = [] then ({ st with warnings := st.warnings ++ [.noColumns al] }, none)
    else
      let txm := if cfg.txMode = "all" then "off"
        else if cfg.txMode ≠ "" then cfg.txMode else "perTable"
      let chunks := selectChunks cfg.txMode cfg.chunkSize mapped
      match execPhase env cfg.continueOnError txm g cols chunks st with
      | (st, some e) => (st, some e)
      | (st, none) =>
        let pub := match ks? with
          | some k => if k.enabled then publishPhase env g al k mapped st else (st, none)
          | none => (st, none)
        match pub with
        | (st, some e) => (st, some e)
        | (st, none) => returnRowsPhase env g al mapped st

/-- One group step of the run (source lines 407–517): skip empty tables;
resolve the source rows (non-array → empty); count totals; register the
normalised key spec; map the rows against the context maps accumulated so
far; then `groupBody`. The second component is the error unwinding to the
outer catch, with the state at the moment of the throw. -/
def runGroup (env : Env) (cfg : LocalCfg) (st : RunState) (g : Group) :
    RunState × Option RunErr :=
  if g.table = "" then (st, none)
  else
    let al := declaredAlias g
    let g := { g with conflict := if g.conflict ≠ "" then g.conflict else "none" }
    let rowsIn := (env.resolveSource
      (if g.sourceType ≠ "" then g.sourceType else "msg") g.source).getD []
    let st := updTable st g.table (fun c => { c with total := c.total + rowsIn.length })
    let ks? := (normKeySpec g).map (fun k =>
      { k with «alias» := if k.«alias» = "" then al else k.«alias»,
               idColumn := if k.idColumn = "" then "id" else k.idColumn })
    let st := registerSpec st al ks?
    let (mapped, errs, fatal) := mapRows env cfg.continueOnError g st.ctxMaps st.keySpecs rowsIn [] 0
    let st := addErrs st g.table errs
    match fatal with
    | some e => (st, some (.map e))
    | none => groupBody env cfg g al ks? mapped st

/-- The group loop (source line 407), stopping at the first propagated
error. -/
def runGroups (env : Env) (cfg : LocalCfg) (st : RunState) :
    List Group → RunState × Option RunErr
  | [] => (st, none)
  | g :: rest =>
    match runGroup env cfg st g with
    | (st', none) => runGroups env cfg st' rest
    | (st', some e) => (st', some e)

/-- The whole run (source lines 379–537, from after the database open):
`BEGIN` for `txMode=all` (source line 405), the group loop, then — on
success only — `db.close()` and the summary `{ok: totals.errors === 0, …}`.
The outer catch (source lines 534–537) performs **no** rollback and no
close; the error is returned with the state at the throw. -/
def runAll (env : Env) (cfg : LocalCfg) : Except RunErr Summary × RunState :=
  let st : RunState := {}
  let st := if cfg.txMode = "all" then beginTx "all" st else st
  match runGroups env cfg st cfg.groups with
  | (st, some e) => (.error e, st)
  | (st, none) =>
    let st := { st with trace := st.trace ++ [.close] }
    (.ok { ok := st.totals.errors == 0, counts := st.totals, tables := st.byTable }, st)

/-! ## Association-list lemmas -/

theorem lookupA_cons_of_eq {β : Type} (q : String × β) (t : List (String × β))
    (a : String) (h : q.1 = a) : lookupA (q :: t) a = some q.2 := by
  unfold lookupA
  rw [List.find?_cons_of_pos _ (by simpa using h)]
  rfl

theorem lookupA_cons_of_ne {β : Type} (q : String × β) (t : List (String × β))
    (a : String) (h : ¬ q.1 = a) : lookupA (q :: t) a = lookupA t a := by
  unfold lookupA
  rw [List.find?_cons_of_neg _ (by simpa using h)]

theorem lookupA_map_overwrite {β : Type} (k a : String) (v : β) :
    ∀ m : List (String × β),
      lookupA (m.map (fun p => if p.1 == k then (k, v) else p)) a =
        if a = k then (lookupA m k).map (fun _ => v) else lookupA m a := by
  intro m
  induction m with
  | nil => by_cases ha : a = k <;> simp [lookupA, ha]
  | cons p t ih =>
    simp only [List.map_cons]
    by_cases hp : p.1 = k
    · rw [if_pos (by simpa using hp)]
      by_cases ha : a = k
      · subst ha
        rw [lookupA_cons_of_eq _ _ _ rfl, lookupA_cons_of_eq _ _ _ hp, if_pos rfl]
        rfl
      · rw [lookupA_cons_of_ne _ _ _ (fun hc => ha hc.symm), ih, if_neg ha, if_neg ha,
          lookupA_cons_of_ne _ _ _ (fun hc : p.1 = a => ha (hc.symm.trans hp))]
    · have hp' : (p.1 == k) = false := by simpa using hp
      rw [if_neg (by simp [hp'])]
      by_cases hpa : p.1 = a
      · have ha : ¬ a = k := fun hc => hp (by rw [hpa, hc])
        rw [lookupA_cons_of_eq _ _ _ hpa, lookupA_cons_of_eq _ _ _ hpa, if_neg ha]
      · rw [lookupA_cons_of_ne _ _ _ hpa, lookupA_cons_of_ne _ _ _ hpa, ih]
        by_cases ha : a = k
        · subst ha
          rw [if_pos rfl, if_pos rfl, lookupA_cons_of_ne _ _ _ hp]
        · rw [if_neg ha, if_neg ha]

theorem any_eq_lookupA_isSome {β : Type} (k : String) :
    ∀ m : List (String × β),
      m.any (fun p => p.1 == k) = (lookupA m k).isSome := by
  intro m
  induction m with
  | nil => simp [lookupA]
  | cons p t ih =>
    by_cases hp : p.1 = k
    · rw [lookupA_cons_of_eq _ _ _ hp]
      simp [hp]
    · have hp' : (p.1 == k) = false := by simpa using hp
      rw [lookupA_cons_of_ne _ _ _ hp]
      simp only [List.any_cons, hp', Bool.false_or]
      exact ih

theorem lookupA_append {β : Type} (a : String) (m₁ m₂ : List (String × β)) :
    lookupA (m₁ ++ m₂) a =
      match lookupA m₁ a with
      | some v => some v
      | none => lookupA m₂ a := by
  induction m₁ with
  | nil => simp [lookupA]
  | cons p t ih =>
    by_cases hp : p.1 = a
    · rw [List.cons_append, lookupA_cons_of_eq _ _ _ hp, lookupA_cons_of_eq _ _ _ hp]
    · rw [List.cons_append, lookupA_cons_of_ne _ _ _ hp, lookupA_cons_of_ne _ _ _ hp, ih]

theorem lookupA_setA {β : Type} (m : List (String × β)) (k a : String) (v : β) :
    lookupA (setA m k v) a = if a = k then some v else lookupA m a := by
  unfold setA
  by_cases hany : m.any (fun p => p.1 == k)
  · rw [if_pos hany, lookupA_map_overwrite]
    by_cases ha : a = k
    · rw [if_pos ha, if_pos ha]
      rw [any_eq_lookupA_isSome] at hany
      cases hl : lookupA m k with
      | none => rw [hl] at hany; simp at hany
      | some w => simp
    · rw [if_neg ha, if_neg ha]
  · rw [if_neg hany, lookupA_append]
    by_cases ha : a = k
    · subst ha
      rw [any_eq_lookupA_isSome] at hany
      cases hl : lookupA m a with
      | none => rw [if_pos rfl, lookupA_cons_of_eq _ _ _ rfl]
      | some w => rw [hl] at hany; simp at hany
    · rw [if_neg ha]
      cases hl : lookupA m a with
      | none => rw [lookupA_cons_of_ne _ _ _ (fun hc => ha hc.symm)]; rfl
      | some w => rfl

/-- **C5.** For a group whose key spec has mode `byTemplate`, the
post-insert SELECT-based key-map build is skipped with a warning signal, the
alias's published map carries no entries (the engine publishes
`{map: new Map()}`), and every later lookup against that alias returns
null — without error, whatever key specs are registered and whatever value
is provided. -/
theorem byTemplate_map_build_skipped :
    ∀ (env : Env) (g : Group) (al : String) (ks : KeySpec) (mapped : List Row)
      (st : RunState),
      ks.mode = "byTemplate" →
      ((publishPhase env g al ks mapped st).2 = none ∧
       Warning.skipMapBuild al ∈ (publishPhase env g al ks mapped st).1.warnings ∧
       lookupA (publishPhase env g al ks mapped st).1.ctxMaps al = some [] ∧
       (∀ (ksMap : KeySpecs) (v : JSVal),
         resolveLookupId (publishPhase env g al ks mapped st).1.ctxMaps ksMap al v
           = none)) := by
  intro env g al ks mapped st hmode
  have hnotbc : ¬ (ks.mode = "byColumns" ∧ ks.columns ≠ []) := by
    rintro ⟨h1, _⟩
    rw [hmode] at h1
    exact absurd h1 (by decide)
  have hred : publishPhase env g al ks mapped st =
      (let st2 : RunState :=
        { st with warnings := st.warnings ++ [Warning.skipMapBuild al],
                  ctxMaps := setA st.ctxMaps al [] }
       match ks.returnPath with
       | some p => ({ st2 with sink := st2.sink ++
           [{ pathType := "flow", path := p, value := SinkVal.mapObj [] }] }, none)
       | none => (st2, none)) := by
    unfold publishPhase
    simp only [if_neg hnotbc, if_true]
  rw [hred]
  cases hret : ks.returnPath with
  | none =>
    refine ⟨rfl, by simp, by rw [lookupA_setA, if_pos rfl], ?_⟩
    intro ksMap v
    unfold resolveLookupId
    rw [show lookupA (setA st.ctxMaps al ([] : KeyMap)) al = some [] by
      rw [lookupA_setA, if_pos rfl]]
    simp [lookupA]
  | some p =>
    refine ⟨rfl, by simp, by rw [lookupA_setA, if_pos rfl], ?_⟩
    intro ksMap v
    unfold resolveLookupId
    rw [show lookupA (setA st.ctxMaps al ([] : KeyMap)) al = some [] by
      rw [lookupA_setA, if_pos rfl]]
    simp [lookupA]

/-- Environment for the C5 witness. -/
def c5Env : Env :=
  { resolveVal := fun _ _ _ => .vnull
    resolveSource := fun _ _ => none
    prepareOk := fun _ => true
    rowOk := fun _ _ => true
    dbAll := fun _ _ => [] }

/-- Group and normalised `byTemplate` key spec for the C5 witness. -/
def c5Group : Group := { table := "t" }

/-- A normalised `byTemplate` key spec as `normKeySpec` would produce it. -/
def c5Ks : KeySpec :=
  { «alias» := "A", mode := "byTemplate", template := "{{x}}",
    separator := "|", idColumn := "id" }

/-- Witness for `byTemplate_map_build_skipped` at a concrete group, key
spec and mapped row. -/
theorem byTemplate_map_build_skipped_witness :
    (publishPhase c5Env c5Group "A" c5Ks [[("x", .vstr "1")]] {}).2 = none ∧
    Warning.skipMapBuild "A" ∈ (publishPhase c5Env c5Group "A" c5Ks [[("x", .vstr "1")]] {}).1.warnings ∧
    lookupA (publishPhase c5Env c5Group "A" c5Ks [[("x", .vstr "1")]] {}).1.ctxMaps "A" = some [] ∧
    (∀ (ksMap : KeySpecs) (v : JSVal),
      resolveLookupId (publishPhase c5Env c5Group "A" c5Ks [[("x", .vstr "1")]] {}).1.ctxMaps ksMap "A" v
        = none) :=
  byTemplate_map_build_skipped c5Env c5Group "A" c5Ks [[("x", .vstr "1")]] {} rfl

/-! ## Claim C4: lookups observe only earlier groups' maps -/

theorem pushEvent_ctxMaps (mode : String) (e : Event) (st : RunState) :
    (pushEvent mode e st).ctxMaps = st.ctxMaps := by
  unfold pushEvent
  split <;> rfl

theorem updTable_ctxMaps (st : RunState) (tbl : String) (f : Counters → Counters) :
    (updTable st tbl f).ctxMaps = st.ctxMaps := rfl

theorem countIns_ctxMaps (tbl : String) (st : RunState) :
    (countIns tbl st).ctxMaps = st.ctxMaps := rfl

theorem countUpd_ctxMaps (tbl : String) (st : RunState) :
    (countUpd tbl st).ctxMaps = st.ctxMaps := rfl

theorem countErr_ctxMaps (tbl : String) (st : RunState) :
    (countErr tbl st).ctxMaps = st.ctxMaps := rfl

theorem addErrs_ctxMaps (st : RunState) (tbl : String) (n : Nat) :
    (addErrs st tbl n).ctxMaps = st.ctxMaps := rfl

theorem execRows_ctxMaps (env : Env) (cont : Bool) (g : Group) (cols : List String)
    (sql : String) :
    ∀ (rows : List Row) (st : RunState),
      (execRows env cont g cols sql rows st).1.ctxMaps = st.ctxMaps := by
  intro rows
  induction rows with
  | nil => intro st; rfl
  | cons r rest ih =>
    intro st
    simp only [execRows]
    split_ifs <;> (try rw [ih]) <;> rfl

theorem runChunk_ctxMaps (env : Env) (cont : Bool) (txm : String) (g : Group)
    (cols : List String) (st : RunState) (ch : List Row) :
    (runChunk env cont txm g cols st ch).1.ctxMaps = st.ctxMaps := by
  unfold runChunk
  cases hsql : buildInsertSQL g cols with
  | error e =>
    simp only [hsql]
    split_ifs <;> first
      | rfl
      | simp [rollbackTx, beginTx, commitTx, pushEvent_ctxMaps]
  | ok sql =>
    simp only [hsql]
    cases hprep : env.prepareOk sql with
    | false =>
      rw [if_neg (by decide)]
      split_ifs <;> first
        | rfl
        | simp [rollbackTx, beginTx, commitTx, pushEvent_ctxMaps]
    | true =>
      rw [if_pos rfl]
      cases hex : execRows env cont g cols sql ch (beginTx txm st) with
      | mk stb errb =>
        have hstb : stb.ctxMaps = st.ctxMaps := by
          have h0 := execRows_ctxMaps env cont g cols sql ch (beginTx txm st)
          rw [hex] at h0
          rw [h0, beginTx, pushEvent_ctxMaps]
        cases errb with
        | none => simp [commitTx, pushEvent_ctxMaps, hstb]
        | some e =>
          split_ifs <;> first
            | rfl
            | simp [rollbackTx, beginTx, commitTx, pushEvent_ctxMaps, hstb]

theorem execPhase_ctxMaps (env : Env) (cont : Bool) (txm : String) (g : Group)
    (cols : List String) :
    ∀ (chunks : List (List Row)) (st : RunState),
      (execPhase env cont txm g cols chunks st).1.ctxMaps = st.ctxMaps := by
  intro chunks
  induction chunks with
  | nil => intro st; rfl
  | cons ch rest ih =>
    intro st
    simp only [execPhase]
    cases hrc : runChunk env cont txm g cols st ch with
    | mk st' err =>
      have h1 : st'.ctxMaps = st.ctxMaps := by
        have h0 := runChunk_ctxMaps env cont txm g cols st ch
        rw [hrc] at h0
        exact h0
      cases err with
      | none => rw [ih st', h1]
      | some e => exact h1

theorem publishPhase_byColumns (env : Env) (g : Group) (al : String) (ks : KeySpec)
    (mapped : List Row) (st : RunState) (hbc : ks.mode = "byColumns" ∧ ks.columns ≠ []) :
    publishPhase env g al ks mapped st =
      (match selectIdsByKeys env g ks
          (mapped.map (fun r => keyOfMappedRow r (some ks))) 500 with
       | .error e => (st, some (.sql e))
       | .ok map =>
         let st2 : RunState := { st with ctxMaps := setA st.ctxMaps al map }
         match ks.returnPath with
         | some p => ({ st2 with sink := st2.sink ++
             [{ pathType := "flow", path := p, value := SinkVal.mapObj map }] }, none)
         | none => (st2, none)) := by
  unfold publishPhase
  simp only [if_pos hbc]
  cases selectIdsByKeys env g ks (mapped.map (fun r => keyOfMappedRow r (some ks))) 500 with
  | error e => rfl
  | ok m => cases ks.returnPath <;> rfl

theorem publishPhase_not_byColumns (env : Env) (g : Group) (al : String) (ks : KeySpec)
    (mapped : List Row) (st : RunState)
    (hnotbc : ¬ (ks.mode = "byColumns" ∧ ks.columns ≠ [])) :
    publishPhase env g al ks mapped st =
      (let st2 : RunState :=
        { st with warnings := st.warnings ++ [Warning.skipMapBuild al],
                  ctxMaps := setA st.ctxMaps al [] }
       match ks.returnPath with
       | some p => ({ st2 with sink := st2.sink ++
           [{ pathType := "flow", path := p, value := SinkVal.mapObj [] }] }, none)
       | none => (st2, none)) := by
  unfold publishPhase
  simp only [if_neg hnotbc, if_true]

theorem publishPhase_ctxMaps_cases (env : Env) (g : Group) (al : String) (ks : KeySpec)
    (mapped : List Row) (st : RunState) :
    (publishPhase env g al ks mapped st).1.ctxMaps = st.ctxMaps ∨
    ∃ m, (publishPhase env g al ks mapped st).1.ctxMaps = setA st.ctxMaps al m := by
  by_cases hbc : ks.mode = "byColumns" ∧ ks.columns ≠ []
  · rw [publishPhase_byColumns env g al ks mapped st hbc]
    cases selectIdsByKeys env g ks (mapped.map (fun r => keyOfMappedRow r (some ks))) 500 with
    | error e => exact Or.inl rfl
    | ok m =>
      right
      exact ⟨m, by cases ks.returnPath <;> rfl⟩
  · rw [publishPhase_not_byColumns env g al ks mapped st hbc]
    right
    exact ⟨[], by cases ks.returnPath <;> rfl⟩

theorem returnRowsPhase_ctxMaps (env : Env) (g : Group) (al : String)
    (mapped : List Row) (st : RunState) :
    (returnRowsPhase env g al mapped st).1.ctxMaps = st.ctxMaps := by
  simp only [returnRowsPhase]
  split
  · rfl
  · split
    · split
      · split <;> rfl
      · rfl
    · rfl

theorem registerSpec_ctxMaps (st : RunState) (al : String) (ks? : Option KeySpec) :
    (registerSpec st al ks?).ctxMaps = st.ctxMaps := by
  unfold registerSpec
  split
  · split <;> rfl
  · rfl

theorem registerSpec_warnings (st : RunState) (al : String) (ks? : Option KeySpec) :
    (registerSpec st al ks?).warnings = st.warnings := by
  unfold registerSpec
  split
  · split <;> rfl
  · rfl

theorem groupBody_ctxMaps_cases (env : Env) (cfg : LocalCfg) (g : Group) (al : String)
    (ks? : Option KeySpec) (mapped : List Row) (st : RunState) :
    (groupBody env cfg g al ks? mapped st).1.ctxMaps = st.ctxMaps ∨
    ∃ m, (groupBody env cfg g al ks? mapped st).1.ctxMaps = setA st.ctxMaps al m := by
  cases ks? with
  | some k =>
    simp only [groupBody]
    split
    · split
      · exact Or.inr ⟨[], rfl⟩
      · exact Or.inl rfl
    · split
      case isTrue =>
        split
        · exact Or.inl rfl
        · split
          · rename_i stE e heqE
            left
            have h0 := congrArg (fun p => p.1.ctxMaps) heqE
            simp only [] at h0
            rw [execPhase_ctxMaps] at h0
            exact h0.symm
          · rename_i stE heqE
            have hE : stE.ctxMaps = st.ctxMaps := by
              have h0 := congrArg (fun p => p.1.ctxMaps) heqE
              simp only [] at h0
              rw [execPhase_ctxMaps] at h0
              exact h0.symm
            by_cases hen : k.enabled = true
            · rw [if_pos hen]
              split
              · rename_i stP eP heqP
                have h0 := congrArg (fun p => p.1.ctxMaps) heqP
                simp only [] at h0
                rcases publishPhase_ctxMaps_cases env g al k mapped stE with hc | ⟨m, hc⟩
                · left
                  rw [← h0, hc, hE]
                · right
                  exact ⟨m, by rw [← h0, hc, hE]⟩
              · rename_i stP heqP
                rw [returnRowsPhase_ctxMaps]
                have h0 := congrArg (fun p => p.1.ctxMaps) heqP
                simp only [] at h0
                rcases publishPhase_ctxMaps_cases env g al k mapped stE with hc | ⟨m, hc⟩
                · left
                  rw [← h0, hc, hE]
                · right
                  exact ⟨m, by rw [← h0, hc, hE]⟩
            · rw [if_neg hen]
              rw [returnRowsPhase_ctxMaps]
              left
              exact hE
      case isFalse =>
        split
        · exact Or.inl rfl
        · split
          · rename_i stE e heqE
            left
            have h0 := congrArg (fun p => p.1.ctxMaps) heqE
            simp only [] at h0
            rw [execPhase_ctxMaps] at h0
            exact h0.symm
          · rename_i stE heqE
            have hE : stE.ctxMaps = st.ctxMaps := by
              have h0 := congrArg (fun p => p.1.ctxMaps) heqE
              simp only [] at h0
              rw [execPhase_ctxMaps] at h0
              exact h0.symm
            by_cases hen : k.enabled = true
            · rw [if_pos hen]
              split
              · rename_i stP eP heqP
                have h0 := congrArg (fun p => p.1.ctxMaps) heqP
                simp only [] at h0
                rcases publishPhase_ctxMaps_cases env g al k mapped stE with hc | ⟨m, hc⟩
                · left
                  rw [← h0, hc, hE]
                · right
                  exact ⟨m, by rw [← h0, hc, hE]⟩
              · rename_i stP heqP
                rw [returnRowsPhase_ctxMaps]
                have h0 := congrArg (fun p => p.1.ctxMaps) heqP
                simp only [] at h0
                rcases publishPhase_ctxMaps_cases env g al k mapped stE with hc | ⟨m, hc⟩
                · left
                  rw [← h0, hc, hE]
                · right
                  exact ⟨m, by rw [← h0, hc, hE]⟩
            · rw [if_neg hen]
              rw [returnRowsPhase_ctxMaps]
              left
              exact hE
  | none =>
    simp only [groupBody]
    split
    · exact Or.inl rfl
    · split
      case isTrue =>
        split
        · exact Or.inl rfl
        · split
          · rename_i stE e heqE
            left
            have h0 := congrArg (fun p => p.1.ctxMaps) heqE
            simp only [] at h0
            rw [execPhase_ctxMaps] at h0
            exact h0.symm
          · rename_i stE heqE
            have hE : stE.ctxMaps = st.ctxMaps := by
              have h0 := congrArg (fun p => p.1.ctxMaps) heqE
              simp only [] at h0
              rw [execPhase_ctxMaps] at h0
              exact h0.symm
            rw [returnRowsPhase_ctxMaps]
            left
            exact hE
      case isFalse =>
        split
        · exact Or.inl rfl
        · split
          · rename_i stE e heqE
            left
            have h0 := congrArg (fun p => p.1.ctxMaps) heqE
            simp only [] at h0
            rw [execPhase_ctxMaps] at h0
            exact h0.symm
          · rename_i stE heqE
            have hE : stE.ctxMaps = st.ctxMaps := by
              have h0 := congrArg (fun p => p.1.ctxMaps) heqE
              simp only [] at h0
              rw [execPhase_ctxMaps] at h0
              exact h0.symm
            rw [returnRowsPhase_ctxMaps]
            left
            exact hE

theorem groupBody_ctxMaps_cases' (env : Env) (cfg : LocalCfg) (g : Group) (al : String)
    (ks? : Option KeySpec) (mapped : List Row) {st stBase : RunState}
    (h : st.ctxMaps = stBase.ctxMaps) :
    (groupBody env cfg g al ks? mapped st).1.ctxMaps = stBase.ctxMaps ∨
    ∃ m, (groupBody env cfg g al ks? mapped st).1.ctxMaps = setA stBase.ctxMaps al m := by
  rcases groupBody_ctxMaps_cases env cfg g al ks? mapped st with hc | ⟨m, hm⟩
  · exact Or.inl (by rw [hc, h])
  · exact Or.inr ⟨m, by rw [hm, h]⟩

theorem runGroup_ctxMaps_cases (env : Env) (cfg : LocalCfg) (st : RunState) (g : Group) :
    (runGroup env cfg st g).1.ctxMaps = st.ctxMaps ∨
    ∃ m, (runGroup env cfg st g).1.ctxMaps = setA st.ctxMaps (declaredAlias g) m := by
  simp only [runGroup]
  split
  · exact Or.inl rfl
  · split
    · left
      rw [addErrs_ctxMaps, registerSpec_ctxMaps, updTable_ctxMaps]
    · exact groupBody_ctxMaps_cases' _ _ _ _ _ _
        (by rw [addErrs_ctxMaps, registerSpec_ctxMaps, updTable_ctxMaps])

theorem runGroups_ctx_aliases (env : Env) (cfg : LocalCfg) :
    ∀ (gs : List Group) (st : RunState) (a : String),
      (lookupA (runGroups env cfg st gs).1.ctxMaps a).isSome = true →
      (lookupA st.ctxMaps a).isSome = true ∨ ∃ g ∈ gs, declaredAlias g = a := by
  intro gs
  induction gs with
  | nil => intro st a h; exact Or.inl h
  | cons g rest ih =>
    intro st a h
    simp only [runGroups] at h
    rcases hrg : runGroup env cfg st g with ⟨st', err⟩
    rw [hrg] at h
    have hcases := runGroup_ctxMaps_cases env cfg st g
    rw [hrg] at hcases
    have step : (lookupA st'.ctxMaps a).isSome = true →
        (lookupA st.ctxMaps a).isSome = true ∨ ∃ g' ∈ g :: rest, declaredAlias g' = a := by
      intro h1
      rcases hcases with hc | ⟨m, hm⟩
      · rw [show st'.ctxMaps = st.ctxMaps from hc] at h1
        exact Or.inl h1
      · rw [show st'.ctxMaps = setA st.ctxMaps (declaredAlias g) m from hm,
          lookupA_setA] at h1
        by_cases ha : a = declaredAlias g
        · exact Or.inr ⟨g, List.mem_cons_self g rest, ha.symm⟩
        · rw [if_neg ha] at h1
          exact Or.inl h1
    cases err with
    | none =>
      rcases ih st' a h with h1 | ⟨g', hg', hga⟩
      · exact step h1
      · exact Or.inr ⟨g', List.mem_cons_of_mem g hg', hga⟩
    | some e => exact step h

/-- The context-map table in force when group `i` starts — and, since
`runGroup` hands precisely the incoming state's `ctxMaps` to the mapping
loop (`mapping_entry_state_ctx` below) and publishes its own map only after
mapping and insertion, throughout group `i`'s row mapping. -/
def ctxMapsAtGroup (env : Env) (cfg : LocalCfg) (i : Nat) : CtxMaps :=
  (runGroups env cfg (if cfg.txMode = "all" then beginTx "all" {} else {})
    (cfg.groups.take i)).1.ctxMaps

/-- The state handed to `mapRows` inside `runGroup` (after the per-table
total update and key-spec registration) carries exactly the incoming
context maps. -/
theorem mapping_entry_state_ctx (st : RunState) (tbl : String)
    (f : Counters → Counters) (al : String) (ks? : Option KeySpec) :
    (registerSpec (updTable st tbl f) al ks?).ctxMaps = st.ctxMaps := by
  rw [registerSpec_ctxMaps, updTable_ctxMaps]

/-- **C4.** A group's lookup resolution during row mapping can only observe
context-map entries published by groups that appear strictly earlier in the
declared group list: every alias present in the context maps in force when
group `i` starts (which are exactly those its mapping consults) is the
declared alias of some group at an index `j < i`. Groups are processed
strictly in declared order and publish only after mapping and inserting, so
a group never sees its own map or a later group's. -/
theorem lookup_observes_only_earlier_groups :
    ∀ (env : Env) (cfg : LocalCfg) (i : Nat) (a : String),
      (lookupA (ctxMapsAtGroup env cfg i) a).isSome = true →
      ∃ j, ∃ hj : j < cfg.groups.length, j < i ∧
        declaredAlias (cfg.groups.get ⟨j, hj⟩) = a := by
  intro env cfg i a h
  have h0 := runGroups_ctx_aliases env cfg (cfg.groups.take i) _ a h
  rcases h0 with h0 | ⟨g, hg, hga⟩
  · exfalso
    have hinit : (if cfg.txMode = "all" then beginTx "all" ({} : RunState) else {}).ctxMaps
        = [] := by
      split <;> rfl
    rw [hinit] at h0
    simp [lookupA] at h0
  · obtain ⟨⟨j, hjlen⟩, hget⟩ := List.mem_iff_get.mp hg
    have hjlen2 := hjlen
    rw [List.length_take] at hjlen2
    have hjlen' : j < cfg.groups.length := by omega
    have hji : j < i := by omega
    refine ⟨j, hjlen', hji, ?_⟩
    rw [← hga, ← hget]
    have : (cfg.groups.take i).get ⟨j, hjlen⟩ = cfg.groups.get ⟨j, hjlen'⟩ := by
      simp [List.get_eq_getElem, List.getElem_take]
    rw [this]

/-- Environment for the C4 witness. -/
def c4Env : Env :=
  { resolveVal := fun _ _ _ => .vnull
    resolveSource := fun _ _ => some []
    prepareOk := fun _ => true
    rowOk := fun _ _ => true
    dbAll := fun _ _ => [] }

/-- Two groups: the first publishes an (empty) key map under alias `"P"`
via `selectMissing`; the second would look it up. -/
def c4Cfg : LocalCfg :=
  { txMode := "perTable"
    groups := [
      { table := "P"
        keySpec := { enabled := true, mode := "byColumns", columns := ["code"],
                     selectMissing := true } },
      { table := "C" }] }

/-- Witness for `lookup_observes_only_earlier_groups`: at the start of group
1, the alias `"P"` is visible and indeed stems from group 0. -/
theorem lookup_observes_only_earlier_groups_witness :
    (lookupA (ctxMapsAtGroup c4Env c4Cfg 1) "P").isSome = true ∧
    (∃ j, ∃ hj : j < c4Cfg.groups.length, j < 1 ∧
      declaredAlias (c4Cfg.groups.get ⟨j, hj⟩) = "P") :=
  ⟨by decide, lookup_observes_only_earlier_groups c4Env c4Cfg 1 "P" (by decide)⟩

/-! ## Claims C10, C1 and C2: run-level behaviour -/

instance {ε α : Type} [DecidableEq ε] [DecidableEq α] : DecidableEq (Except ε α)
  | .ok x, .ok y =>
    if h : x = y then .isTrue (congrArg Except.ok h)
    else .isFalse (fun hc => h (Except.ok.inj hc))
  | .error x, .error y =>
    if h : x = y then .isTrue (congrArg Except.error h)
    else .isFalse (fun hc => h (Except.error.inj hc))
  | .ok _, .error _ => .isFalse (fun hc => Except.noConfusion hc)
  | .error _, .ok _ => .isFalse (fun hc => Except.noConfusion hc)

/-- **C10.** Whenever a run completes and returns a summary, the summary's
`ok` field is true exactly when the run-wide error counter is zero (the
summary is built as `ok: totals.errors === 0`); per-row failures suppressed
by `continueOnError` still count and therefore still make `ok` false even
though a summary, not an error, is produced (see the witness). -/
theorem summary_ok_iff_no_errors :
    ∀ (env : Env) (cfg : LocalCfg) (s : Summary) (st : RunState),
      runAll env cfg = (.ok s, st) → (s.ok = true ↔ s.counts.errors = 0) := by
  intro env cfg s st h
  unfold runAll at h
  simp only [] at h
  rcases hr : runGroups env cfg
      (if cfg.txMode = "all" then beginTx "all" {} else {}) cfg.groups with ⟨st', err⟩
  rw [hr] at h
  cases err with
  | some e => exact absurd h (by simp)
  | none =>
    simp only [Prod.mk.injEq] at h
    obtain ⟨h1, _⟩ := h
    injection h1 with h1
    rw [← h1]
    simp

/-- Environment for the C10 witness: two source rows, all lookups miss. -/
def c10Env : Env :=
  { resolveVal := fun _ _ _ => .vnull
    resolveSource := fun _ _ => some [[], []]
    prepareOk := fun _ => true
    rowOk := fun _ _ => true
    dbAll := fun _ _ => [] }

/-- A strict lookup entry against an alias no group ever publishes. -/
def c10Entry : MappingEntry :=
  { col := "dept_id", source := "lookup", lookup := some { fromGroup := "P", strict := true } }

/-- Config for the C10 witness: `continueOnError` suppresses both row
failures, so the run completes with a summary. -/
def c10Cfg : LocalCfg :=
  { txMode := "perTable", continueOnError := true,
    groups := [{ table := "t", mapping := [c10Entry] }] }

/-- The summary the C10 witness run produces. -/
def c10Summary : Summary :=
  { ok := false, counts := { errors := 2 }, tables := [("t", { errors := 2, total := 2 })] }

/-- The final state of the C10 witness run. -/
def c10State : RunState :=
  { totals := { errors := 2 }, byTable := [("t", { errors := 2, total := 2 })],
    trace := [Event.close] }

/-- Witness for `summary_ok_iff_no_errors`: both rows fail to map, the
failures are suppressed, the run still returns a summary — with `ok =
false` because the error counter is 2. -/
theorem summary_ok_iff_no_errors_witness :
    runAll c10Env c10Cfg = (.ok c10Summary, c10State) ∧
    (c10Summary.ok = true ↔ c10Summary.counts.errors = 0) :=
  ⟨by decide, summary_ok_iff_no_errors c10Env c10Cfg c10Summary c10State (by decide)⟩

/-- Environment for the C1 run: one source row, every statement succeeds. -/
def c1Env : Env :=
  { resolveVal := fun _ _ _ => .vstr "x"
    resolveSource := fun _ _ => some [[("a", .vstr "x")]]
    prepareOk := fun _ => true
    rowOk := fun _ _ => true
    dbAll := fun _ _ => [] }

/-- A `txMode=all` run configuration with one successful auto-mapped
group. -/
def c1Cfg : LocalCfg :=
  { txMode := "all"
    groups := [{ table := "t", autoMap := true, source := "payload.items" }] }

/-- The summary the C1 run returns: a fully successful single-row insert. -/
def c1Summary : Summary :=
  { ok := true, counts := { inserted := 1 },
    tables := [("t", { inserted := 1, total := 1 })] }

/-- **C1.** For `txMode=all` the engine issues `BEGIN` at the start of the
run but **never** issues a matching `COMMIT` (nor a `ROLLBACK`): a fully
successful run closes the connection with the whole-run transaction still
active, contradicting the specified
`NotStarted → Active → {Committed | RolledBack}` life cycle. The trace of
this successful concrete run is exactly `[BEGIN, close]`. -/
theorem tx_all_begin_never_committed :
    (runAll c1Env c1Cfg).2.trace = [Event.begin, Event.close] ∧
    Event.commit ∉ (runAll c1Env c1Cfg).2.trace ∧
    Event.rollback ∉ (runAll c1Env c1Cfg).2.trace ∧
    (runAll c1Env c1Cfg).1 = .ok c1Summary := by
  refine ⟨by decide, by decide, by decide, by decide⟩

theorem pushEvent_totals (mode : String) (e : Event) (st : RunState) :
    (pushEvent mode e st).totals = st.totals := by
  unfold pushEvent
  split <;> rfl

theorem pushEvent_byTable (mode : String) (e : Event) (st : RunState) :
    (pushEvent mode e st).byTable = st.byTable := by
  unfold pushEvent
  split <;> rfl

/-- Environment for the C2 run. -/
def c2Env : Env :=
  { resolveVal := fun _ _ _ => .vstr "x"
    resolveSource := fun _ _ => some [[]]
    prepareOk := fun _ => true
    rowOk := fun _ _ => true
    dbAll := fun _ _ => [] }

/-- A value-path mapping entry. -/
def c2Entry : MappingEntry := { col := "a", source := "value", src := "p" }

/-- An upsert group whose `updateColumns` contains an empty name, so that
`buildInsertSQL` throws `InvalidIdentifier` when building the statement. -/
def c2Group : Group :=
  { table := "t", mapping := [c2Entry], conflict := "upsert",
    upsertKeys := ["k"], updateColumns := [""] }

/-- Config for the C2 counterexample run: `continueOnError = true`. -/
def c2Cfg : LocalCfg :=
  { txMode := "perTable", continueOnError := true, groups := [c2Group] }

/-- **C2 (counterexample).** With `continueOnError = true`, the
`InvalidIdentifier` thrown while building the INSERT statement is caught by
the per-chunk handler: the chunk is rolled back and the run continues to a
normal summary — it is not counted as an error either, so the summary even
reports `ok = true`. The claim's "aborts the entire run regardless of the
continueOnError setting" fails on this input. -/
theorem invalid_identifier_suppressed_counterexample :
    c2Cfg.continueOnError = true ∧
    buildInsertSQL c2Group ["a"] = .error (.invalidIdentifier "") ∧
    runAll c2Env c2Cfg =
      (.ok { ok := true, counts := {}, tables := [("t", { total := 1 })] },
       { byTable := [("t", { total := 1 })],
         trace := [Event.begin, Event.rollback, Event.close] }) := by
  refine ⟨rfl, by decide, by decide⟩

/-- **C2 (amended).** An `InvalidIdentifier` raised while building the
INSERT statement aborts the run exactly when `continueOnError` is false;
when `continueOnError` is true it is swallowed by the per-chunk handler
(each chunk rolls back) and the run continues, without incrementing any
error counter. -/
theorem invalid_identifier_abort_iff_continueOnError :
    ∀ (env : Env) (cont : Bool) (txm : String) (g : Group) (cols : List String)
      (st : RunState) (chunks : List (List Row)) (e : SqlErr),
      buildInsertSQL g cols = .error e →
      ((cont = false → chunks ≠ [] →
          (execPhase env cont txm g cols chunks st).2 = some (.sql e)) ∧
       (cont = true →
          (execPhase env cont txm g cols chunks st).2 = none ∧
          (execPhase env cont txm g cols chunks st).1.totals = st.totals ∧
          (execPhase env cont txm g cols chunks st).1.byTable = st.byTable)) := by
  intro env cont txm g cols st chunks e hsql
  constructor
  · intro hcont hne
    cases chunks with
    | nil => exact absurd rfl hne
    | cons ch rest =>
      simp only [execPhase]
      have hrc : runChunk env cont txm g cols st ch =
          (rollbackTx txm (beginTx txm st), some (.sql e)) := by
        unfold runChunk
        rw [hsql, hcont]
        rfl
      rw [hrc]
  · intro hcont
    subst hcont
    induction chunks generalizing st with
    | nil => exact ⟨rfl, rfl, rfl⟩
    | cons ch rest ih =>
      have hrc : runChunk env true txm g cols st ch =
          (rollbackTx txm (beginTx txm st), none) := by
        unfold runChunk
        rw [hsql]
        rfl
      simp only [execPhase, hrc]
      obtain ⟨ih1, ih2, ih3⟩ := ih (rollbackTx txm (beginTx txm st))
      refine ⟨ih1, ?_, ?_⟩
      · rw [ih2]
        simp only [rollbackTx, beginTx, pushEvent_totals]
      · rw [ih3]
        simp only [rollbackTx, beginTx, pushEvent_byTable]

/-- Witness for `invalid_identifier_abort_iff_continueOnError` at the C2
group: the error propagates with `continueOnError = false` and is swallowed
with `continueOnError = true`. -/
theorem invalid_identifier_abort_iff_continueOnError_witness :
    buildInsertSQL c2Group ["a"] = .error (.invalidIdentifier "") ∧
    (execPhase c2Env false "perTable" c2Group ["a"] ([[[]]] : List (List Row)) {}).2
      = some (.sql (.invalidIdentifier "")) ∧
    (execPhase c2Env true "perTable" c2Group ["a"] ([[[]]] : List (List Row)) {}).2
      = none :=
  ⟨by decide,
   (invalid_identifier_abort_iff_continueOnError c2Env false "perTable" c2Group ["a"]
      {} ([[[]]] : List (List Row)) (.invalidIdentifier "") (by decide)).1 rfl (by decide),
   ((invalid_identifier_abort_iff_continueOnError c2Env true "perTable" c2Group ["a"]
      {} ([[[]]] : List (List Row)) (.invalidIdentifier "") (by decide)).2 rfl).1⟩
